import Mathlib

/-!
Shallow embedding of the `agent-eval` core (src/core/schema.py, src/core/parser.py,
src/core/evaluator.py) and verification of the specification claims.

Conventions of the embedding:
* Python `float` prices are modelled as exact rationals (`ℚ`);
* Python strings are modelled as `String` / `List Char`; Python `str.lower`,
  `str.strip`, `str.splitlines` are modelled on the ASCII subset exercised by
  the program (the rare Unicode line terminators and whitespace are out of
  modelled scope);
* Python `None` becomes `Option.none`; fallible construction returns
  `Except String`;
* the regular expressions of parser.py are compiled by hand into executable
  leftmost-match scanners with the same backtracking behaviour.
-/

/- Batteries marks rational arithmetic `@[irreducible]`, which blocks `decide`
on concrete evaluations of the embedded program; prices here are exact
rationals, so the operations are restored to normal reducibility for this
development (the kernel is unaffected by reducibility attributes). -/
attribute [local semireducible] Rat.add Rat.sub Rat.mul Rat.inv Rat.ofScientific

/- ## Character and string utilities (Python `str` behaviour, ASCII subset) -/

/-- ASCII lowercasing, modelling `str.lower` on the ASCII texts the program
handles (codepoints 65–90 are shifted by 32). -/
def asciiLower (c : Char) : Char :=
  if 65 ≤ c.toNat ∧ c.toNat ≤ 90 then Char.ofNat (c.toNat + 32) else c

/-- `str.lower` on a character list. -/
def lowerL (s : List Char) : List Char := s.map asciiLower

/-- Python whitespace (`str.strip` / regex `\s`), ASCII subset:
space, tab, newline, carriage return, vertical tab, form feed. -/
def isPyWs (c : Char) : Bool :=
  c.toNat = 32 || c.toNat = 9 || c.toNat = 10 || c.toNat = 13 || c.toNat = 11 || c.toNat = 12

/-- Line terminators recognised by `str.splitlines` (ASCII subset). -/
def isLineBreak (c : Char) : Bool :=
  c.toNat = 10 || c.toNat = 13 || c.toNat = 11 || c.toNat = 12

/-- Worker for `splitlines`: `cur` is the reversed current line. -/
def slGo : List Char → List Char → List (List Char)
  | cur, [] => if cur.isEmpty then [] else [cur.reverse]
  | cur, '\r' :: '\n' :: t => cur.reverse :: slGo [] t
  | cur, c :: t => if isLineBreak c then cur.reverse :: slGo [] t else slGo (c :: cur) t

/-- Python `str.splitlines`: pieces between terminators; a trailing terminator
produces no trailing empty piece; the empty string yields no pieces. -/
def splitlines (s : List Char) : List (List Char) := slGo [] s

/-- Python `str.strip` on a character list. -/
def stripL (s : List Char) : List Char :=
  ((s.dropWhile isPyWs).reverse.dropWhile isPyWs).reverse

/-- Python substring test `pat in s` on character lists. -/
def hasSub (pat : List Char) : List Char → Bool
  | [] => pat.isEmpty
  | s@(_ :: t) => pat.isPrefixOf s || hasSub pat t

/-- Case-insensitive literal match at the start of `s` (`pat` given lowercase). -/
def ciStarts : List Char → List Char → Bool
  | [], _ => true
  | _ :: _, [] => false
  | p :: ps, c :: cs => p = asciiLower c && ciStarts ps cs

/-- Drop a case-insensitive literal from the start of `s`, or fail. -/
def ciDrop (pat s : List Char) : Option (List Char) :=
  if ciStarts pat s then some (s.drop pat.length) else none

/-- Require a literal character. -/
def expectChar (c : Char) : List Char → Option (List Char)
  | x :: t => if x = c then some t else none
  | [] => none

/- ## src/core/parser.py -/

/-- Match of `_RE_PRICE` (`\$\s*([0-9]+(?:\.[0-9]{2})?)`) anchored at the start
of `s`; returns capture group 1. The digit run is taken greedily; the optional
`.dd` part is taken only when a dot and at least two digits follow. -/
def priceMatchAt : List Char → Option (List Char)
  | '$' :: r =>
    let r2 := r.dropWhile isPyWs
    let ds := r2.takeWhile Char.isDigit
    if ds.isEmpty then none
    else
      match r2.dropWhile Char.isDigit with
      | '.' :: d1 :: d2 :: _ =>
        if d1.isDigit && d2.isDigit then some (ds ++ ['.', d1, d2]) else some ds
      | _ => some ds
  | _ => none

/-- Match of `_RE_URL` (`https?://[^\s)]+`) anchored at the start of `s`;
returns the whole match. -/
def urlMatchAt (s : List Char) : Option (List Char) :=
  let tailOf : List Char → List Char → Option (List Char) := fun scheme rest =>
    let body := rest.takeWhile (fun c => !isPyWs c && c ≠ ')')
    if body.isEmpty then none else some (scheme ++ body)
  if ("https://".data).isPrefixOf s then
    tailOf ("https://".data) (s.drop 8)
  else if ("http://".data).isPrefixOf s then
    tailOf ("http://".data) (s.drop 7)
  else none

/-- Leftmost search: try a match at every suffix, left to right (`re.search`). -/
def scanFor (f : List Char → Option α) : List Char → Option α
  | [] => none
  | s@(_ :: t) => f s <|> scanFor f t

/-- Group 1 of `_RE_CHOSEN` after the colon: the regex tail is `\s*(.+)` with a
greedy `\s*` (which may cross newlines) and `.` not matching newline.  When some
non-whitespace follows the whitespace run, group 1 runs from it to the next
newline; when the rest is all whitespace, the greedy `\s*` backtracks to the
last non-newline character, which becomes the whole group. -/
def group1After (r : List Char) : Option (List Char) :=
  let rest2 := r.dropWhile isPyWs
  if rest2.isEmpty then
    match r.reverse.dropWhile (· = '\n') with
    | [] => none
    | c :: _ => some [c]
  else some (rest2.takeWhile (· ≠ '\n'))

/-- Match of `_RE_CHOSEN`
(`chosen retailer\s*\+\s*price\s*\+\s*url\s*:\s*(.+)`, case-insensitive)
anchored at the start of `s`; returns capture group 1. -/
def chosenMatchAt (s : List Char) : Option (List Char) := do
  let r1 ← ciDrop ("chosen retailer".data) s
  let r2 ← expectChar '+' (r1.dropWhile isPyWs)
  let r3 ← ciDrop ("price".data) (r2.dropWhile isPyWs)
  let r4 ← expectChar '+' (r3.dropWhile isPyWs)
  let r5 ← ciDrop ("url".data) (r4.dropWhile isPyWs)
  let r6 ← expectChar ':' (r5.dropWhile isPyWs)
  group1After r6

/-- Match of `_RE_WITHIN_BUDGET`
(`within budget\s*\(?\$?[0-9.]+\s*hard cap\)?\?\s*(yes|no)`, case-insensitive)
anchored at the start of `s`; returns whether group 1 equals `yes`. -/
def withinMatchAt (s : List Char) : Option Bool := do
  let r1 ← ciDrop ("within budget".data) s
  let r2 := r1.dropWhile isPyWs
  let r3 := match r2 with | '(' :: t => t | _ => r2
  let r4 := match r3 with | '$' :: t => t | _ => r3
  let ds := r4.takeWhile (fun c => c.isDigit || c = '.')
  if ds.isEmpty then none
  else
    let r5 := (r4.dropWhile (fun c => c.isDigit || c = '.')).dropWhile isPyWs
    let r6 ← ciDrop ("hard cap".data) r5
    let r7 := match r6 with | ')' :: t => t | _ => r6
    let r8 ← expectChar '?' r7
    let r9 := r8.dropWhile isPyWs
    if ciStarts ("yes".data) r9 then some true
    else if ciStarts ("no".data) r9 then some false
    else none

/-- `_infer_retailer`. -/
def inferRetailer (s : List Char) : Option String :=
  let lower := lowerL s
  if hasSub ("amazon".data) lower then some "Amazon"
  else if hasSub ("best buy".data) lower || hasSub ("bestbuy".data) lower then some "Best Buy"
  else if hasSub ("apple".data) lower then some "Apple"
  else none

/-- `_after_colon`. -/
def afterColon (line : List Char) : List Char :=
  if line.contains ':' then stripL (line.dropWhile (· ≠ ':')).tail
  else stripL line

/-- Python `str.rstrip(":")`. -/
def rstripColons (s : List Char) : List Char :=
  (s.reverse.dropWhile (· = ':')).reverse

def digitsToNat (l : List Char) : Nat :=
  l.foldl (fun n c => n * 10 + (c.toNat - 48)) 0

/-- Python `float` applied to the strings produced by `_RE_PRICE`
(digits optionally followed by a dot and digits). -/
def parsePriceQ (s : List Char) : ℚ :=
  let intPart := s.takeWhile Char.isDigit
  match s.dropWhile Char.isDigit with
  | '.' :: frac =>
    let fd := frac.takeWhile Char.isDigit
    (digitsToNat intPart : ℚ) + (digitsToNat fd : ℚ) / ((10 : ℚ) ^ fd.length)
  | _ => (digitsToNat intPart : ℚ)

/-- The per-retailer field record built up by `parse_agent_output`
(`offers_by_retailer[retailer]`, a Python dict of optional strings). -/
structure RawFields where
  price : Option (List Char)
  url : Option (List Char)
  availability : Option (List Char)
  seller : Option (List Char)
  variant_match : Option (List Char)
deriving DecidableEq

def RawFields.empty : RawFields := ⟨none, none, none, none, none⟩

/-- Python falsiness of `fields.get(key)`: missing or the empty string. -/
def fieldFalsy : Option (List Char) → Bool
  | none => true
  | some s => s.isEmpty

/-- Price block of `_capture_line_fields`: `if price_match and not fields.get("price")`. -/
def capPrice (f : RawFields) (line : List Char) : RawFields :=
  match scanFor priceMatchAt line with
  | some p => if fieldFalsy f.price then { f with price := some p } else f
  | none => f

/-- URL block of `_capture_line_fields`. -/
def capUrl (f : RawFields) (line : List Char) : RawFields :=
  match scanFor urlMatchAt line with
  | some u => if fieldFalsy f.url then { f with url := some u } else f
  | none => f

/-- Availability block of `_capture_line_fields`. -/
def capAvail (f : RawFields) (line : List Char) : RawFields :=
  if hasSub ("availability".data) (lowerL line) && fieldFalsy f.availability then
    { f with availability := some (afterColon line) } else f

/-- Seller block of `_capture_line_fields`. -/
def capSeller (f : RawFields) (line : List Char) : RawFields :=
  if hasSub ("seller".data) (lowerL line) && fieldFalsy f.seller then
    { f with seller := some (afterColon line) } else f

/-- Variant-match block of `_capture_line_fields`. -/
def capVariant (f : RawFields) (line : List Char) : RawFields :=
  if hasSub ("variant match".data) (lowerL line) && fieldFalsy f.variant_match then
    let v := lowerL (afterColon line)
    if v = ("yes".data) ∨ v = ("true".data) then { f with variant_match := some ("true".data) }
    else if v = ("no".data) ∨ v = ("false".data) then { f with variant_match := some ("false".data) }
    else f
  else f

/-- `_capture_line_fields`: the five capture blocks in source order; each field
is written only when its current value is falsy (missing or empty). -/
def capture_line_fields (f0 : RawFields) (line : List Char) : RawFields :=
  capVariant (capSeller (capAvail (capUrl (capPrice f0 line) line) line) line) line

/-- Retailer-context switch at the top of the parse loop. -/
def switchRetailer (cur : Option String) (lower : List Char) : Option String :=
  if hasSub ("amazon".data) lower then some "Amazon"
  else if hasSub ("best buy".data) lower || hasSub ("bestbuy".data) lower then some "Best Buy"
  else if hasSub ("apple".data) lower then some "Apple"
  else cur

/-- `offers_by_retailer.setdefault(r, {})` followed by `_capture_line_fields`:
update the record of `k` in place, or append a fresh one (Python dicts keep
insertion order). -/
def updateAssoc : List (String × RawFields) → String → List Char → List (String × RawFields)
  | [], k, line => [(k, capture_line_fields RawFields.empty line)]
  | (k', f) :: rest, k, line =>
    if k' = k then (k', capture_line_fields f line) :: rest
    else (k', f) :: updateAssoc rest k line

/-- The main loop of `parse_agent_output` over the non-empty stripped lines. -/
def parseLoop : List (List Char) → Option String → List (String × RawFields) →
    List (String × RawFields)
  | [], _, acc => acc
  | line :: rest, cur, acc =>
    let cur2 := switchRetailer cur (lowerL line)
    match cur2 with
    | none => parseLoop rest cur2 acc
    | some r => parseLoop rest cur2 (updateAssoc acc r line)

/-- `ParsedOffer` (parser.py). -/
structure ParsedOffer where
  retailer : String
  price_usd : Option ℚ
  url : Option String
  availability : Option String
  seller : Option String
  variant_match : Option Bool
  listing_id : Option String
  listing_id_type : Option String
deriving DecidableEq

/-- `ParsedAgentOutput` (parser.py). -/
structure ParsedAgentOutput where
  raw_text : String
  offers : List ParsedOffer
  chosen : Option ParsedOffer
  within_budget : Option Bool
deriving DecidableEq

/-- `_build_offer`. -/
def build_offer (retailer : String) (f : RawFields) : ParsedOffer :=
  let price : Option ℚ := match f.price with
    | some s => if s.isEmpty then none else some (parsePriceQ s)
    | none => none
  let vm : Option Bool :=
    if f.variant_match = some ("true".data) then some true
    else if f.variant_match = some ("false".data) then some false
    else none
  { retailer := retailer
    price_usd := price
    url := f.url.map String.mk
    availability := f.availability.map String.mk
    seller := f.seller.map String.mk
    variant_match := vm
    listing_id := none
    listing_id_type := none }

/-- Offer built from the text captured by `_RE_CHOSEN` group 1. -/
def offerFromText (text : List Char) : ParsedOffer :=
  { retailer := (inferRetailer text).getD "Unknown"
    price_usd := (scanFor priceMatchAt text).map parsePriceQ
    url := (scanFor urlMatchAt text).map String.mk
    availability := none
    seller := none
    variant_match := none
    listing_id := none
    listing_id_type := none }

/-- `_parse_chosen_offer_by_lines`: block-scan fallback for the chosen offer. -/
def chosenByLines : List (List Char) → Option ParsedOffer
  | [] => none
  | line :: rest =>
    let normalized := rstripColons (lowerL (stripL line))
    if normalized = ("chosen retailer + price + url".data) then
      let next := (rest.head?).getD []
      let nextnext := ((rest.drop 1).head?).getD []
      if hasSub ("no valid choice".data) (lowerL next) then none
      else
        some { retailer := (inferRetailer next).getD "Unknown"
               price_usd := ((scanFor priceMatchAt next <|> scanFor priceMatchAt nextnext)).map parsePriceQ
               url := ((scanFor urlMatchAt next <|> scanFor urlMatchAt nextnext)).map String.mk
               availability := none
               seller := none
               variant_match := none
               listing_id := none
               listing_id_type := none }
    else chosenByLines rest

/-- `_parse_within_budget_by_lines`: block-scan fallback for within-budget.
When a label line is found but the next line answers neither yes nor no, the
scan continues with later lines (as in the source). -/
def withinByLines : List (List Char) → Option Bool
  | [] => none
  | line :: rest =>
    if ("within budget".data).isPrefixOf (lowerL (stripL line)) then
      let next := (rest.head?).getD []
      if ("yes".data).isPrefixOf (lowerL next) then some true
      else if ("no".data).isPrefixOf (lowerL next) then some false
      else withinByLines rest
    else withinByLines rest

/-- `_parse_chosen_offer`. -/
def parse_chosen_offer (raw : List Char) (lines : List (List Char)) : Option ParsedOffer :=
  match scanFor chosenMatchAt raw with
  | some g => some (offerFromText g)
  | none => chosenByLines lines

/-- `_parse_within_budget`. -/
def parse_within_budget (raw : List Char) (lines : List (List Char)) : Option Bool :=
  match scanFor withinMatchAt raw with
  | some b => some b
  | none => withinByLines lines

/-- `parse_agent_output`.  (The source accepts `Optional[str]` and replaces
`None` by `""`; the evaluator always passes the validated, hence present,
report text, so the argument is a plain `String` here.) -/
def parse_agent_output (raw_text : String) : ParsedAgentOutput :=
  let cs := raw_text.data
  let lines := ((splitlines cs).map stripL).filter (fun l => !l.isEmpty)
  let table := parseLoop lines none []
  { raw_text := raw_text
    offers := table.map (fun kv => build_offer kv.1 kv.2)
    chosen := parse_chosen_offer cs lines
    within_budget := parse_within_budget cs lines }

/- ## src/core/schema.py -/

/-- Untyped documents as handled by schema.py.  A JSON `null` value and an
absent key are indistinguishable to every validator in the source (both reach
the `value is None` / failed `isinstance` branches), so `null` is represented
by absence.  Python `bool` is a distinct constructor because `isinstance(b,
(int, float))` holds for booleans while `isinstance(n, bool)` fails for plain
numbers. -/
inductive Json where
  | str (s : String)
  | num (q : ℚ)
  | bool (b : Bool)
  | arr (items : List Json)
  | obj (fields : List (String × Json))

/-- Python `data.get(key)` on the modelled dict. -/
def getKey : List (String × Json) → String → Option Json
  | [], _ => none
  | (k, v) :: rest, key => if k = key then some v else getKey rest key

/-- `_require_dict`. -/
def require_dict (d : List (String × Json)) (k : String) : Except String (List (String × Json)) :=
  match getKey d k with
  | some (.obj f) => .ok f
  | _ => .error ("Expected object for " ++ k)

/-- `_require_list`: only `isinstance(value, list)` is checked, so an empty
list is accepted. -/
def require_list (d : List (String × Json)) (k : String) : Except String (List Json) :=
  match getKey d k with
  | some (.arr items) => .ok items
  | _ => .error ("Expected list for " ++ k)

/-- `_opt_list`. -/
def opt_list (d : List (String × Json)) (k : String) : Except String (List Json) :=
  match getKey d k with
  | none => .ok []
  | some (.arr items) => .ok items
  | some _ => .error ("Expected list for " ++ k)

/-- `_require_str`: a string, non-empty after stripping; the stripped value is
returned. -/
def require_str (d : List (String × Json)) (k : String) : Except String String :=
  match getKey d k with
  | some (.str s) =>
    if (stripL s.data).isEmpty then .error ("Expected non-empty string for " ++ k)
    else .ok (String.mk (stripL s.data))
  | _ => .error ("Expected non-empty string for " ++ k)

/-- `_opt_str`. -/
def opt_str (d : List (String × Json)) (k : String) : Except String (Option String) :=
  match getKey d k with
  | none => .ok none
  | some (.str s) => .ok (some (String.mk (stripL s.data)))
  | some _ => .error ("Expected string for " ++ k)

/-- `_require_bool`: literal booleans only. -/
def require_bool (d : List (String × Json)) (k : String) : Except String Bool :=
  match getKey d k with
  | some (.bool b) => .ok b
  | _ => .error ("Expected boolean for " ++ k)

/-- `_opt_bool`. -/
def opt_bool (d : List (String × Json)) (k : String) : Except String (Option Bool) :=
  match getKey d k with
  | none => .ok none
  | some (.bool b) => .ok (some b)
  | some _ => .error ("Expected boolean for " ++ k)

/-- `_opt_float`: `isinstance(value, (int, float))` also holds for Python
booleans (`bool` subclasses `int`), which therefore pass and are converted by
`float(...)` to `1.0` / `0.0`.  No sign check is performed. -/
def opt_float (d : List (String × Json)) (k : String) : Except String (Option ℚ) :=
  match getKey d k with
  | none => .ok none
  | some (.num q) => .ok (some q)
  | some (.bool b) => .ok (some (if b then 1 else 0))
  | some _ => .error ("Expected number for " ++ k)

/-- `_require_str_list`: a non-empty list of non-empty strings, each stripped. -/
def require_str_list (d : List (String × Json)) (k : String) : Except String (List String) :=
  match getKey d k with
  | some (.arr items) =>
    if items.isEmpty then .error ("Expected non-empty list for " ++ k)
    else items.mapM (fun j => match j with
      | .str s =>
        if (stripL s.data).isEmpty then .error ("Expected string items for " ++ k)
        else .ok (String.mk (stripL s.data))
      | _ => .error ("Expected string items for " ++ k))
  | _ => .error ("Expected non-empty list for " ++ k)

/-- Accessing `.get` on a non-dict element of a validated list would raise an
`AttributeError` in the source; modelled as a construction failure. -/
def asObj : Json → Except String (List (String × Json))
  | .obj f => .ok f
  | _ => .error "AttributeError"

/-- Structural model of `datetime.fromisoformat` as invoked by
`_parse_iso8601`: a trailing `Z` is first rewritten to `+00:00` (as in the
source), then `YYYY-MM-DD`, optionally followed by `THH:MM:SS` and an
optional `(+|-)HH:MM` offset, is accepted.  This covers the subset of
ISO-8601 exercised by the documents; failure aborts construction. -/
def isoOffsetOk : List Char → Bool
  | [] => true
  | c :: rest =>
    (c = '+' || c = '-') &&
      match rest with
      | [h1, h2, ':', m1, m2] => [h1, h2, m1, m2].all Char.isDigit
      | _ => false

def isoTimeOk : List Char → Bool
  | [] => true
  | 'T' :: rest =>
    (match rest with
     | h1 :: h2 :: ':' :: m1 :: m2 :: ':' :: s1 :: s2 :: off =>
       ([h1, h2, m1, m2, s1, s2].all Char.isDigit) && isoOffsetOk off
     | _ => false)
  | _ => false

def parse_iso8601 (s : String) : Bool :=
  let t := if s.data.getLast? = some 'Z' then s.data.dropLast ++ ("+00:00".data) else s.data
  match t with
  | y1 :: y2 :: y3 :: y4 :: '-' :: m1 :: m2 :: '-' :: d1 :: d2 :: rest =>
    ([y1, y2, y3, y4, m1, m2, d1, d2].all Char.isDigit) && isoTimeOk rest
  | _ => false

def checkIso (s : String) : Except String Unit :=
  if parse_iso8601 s then .ok () else .error "Invalid isoformat string"

/-- `AgentSpec` (schema.py). -/
structure AgentSpec where
  name : String
  version : Option String
  run_mode : Option String
deriving DecidableEq

def AgentSpec.from_dict (d : List (String × Json)) : Except String AgentSpec := do
  let name ← require_str d "name"
  let version ← opt_str d "version"
  let run_mode ← opt_str d "run_mode"
  return { name := name, version := version, run_mode := run_mode }

/-- `ListingRef` (schema.py). -/
structure ListingRef where
  retailer : String
  url : String
  listing_id : Option String
  listing_id_type : Option String
deriving DecidableEq

def ListingRef.from_dict (d : List (String × Json)) : Except String ListingRef := do
  let retailer ← require_str d "retailer"
  let url ← require_str d "url"
  let listing_id ← opt_str d "listing_id"
  let listing_id_type ← opt_str d "listing_id_type"
  return { retailer := retailer, url := url, listing_id := listing_id,
           listing_id_type := listing_id_type }

/-- `TaskRules` (schema.py). -/
structure TaskRules where
  allow_third_party : Bool
  allow_refurbished : Bool
  require_full_set : Bool
deriving DecidableEq

def TaskRules.from_dict (d : List (String × Json)) : Except String TaskRules := do
  let allow_third_party ← require_bool d "allow_third_party"
  let allow_refurbished ← require_bool d "allow_refurbished"
  let require_full_set ← require_bool d "require_full_set"
  return { allow_third_party := allow_third_party, allow_refurbished := allow_refurbished,
           require_full_set := require_full_set }

/-- `TaskSpec` (schema.py). -/
structure TaskSpec where
  product_name : String
  product_variant : Option String
  budget_usd : Option ℚ
  currency : String
  allowed_retailers : List String
  rules : TaskRules
  canonical_listings : List ListingRef
deriving DecidableEq

def TaskSpec.from_dict (d : List (String × Json)) : Except String TaskSpec := do
  let product_name ← require_str d "product_name"
  let product_variant ← opt_str d "product_variant"
  let budget_usd ← opt_float d "budget_usd"
  let currency ← require_str d "currency"
  let allowed_retailers ← require_str_list d "allowed_retailers"
  let rulesDict ← require_dict d "rules"
  let rules ← TaskRules.from_dict rulesDict
  let rawListings ← opt_list d "canonical_listings"
  let canonical_listings ← rawListings.mapM (fun j => do ListingRef.from_dict (← asObj j))
  return { product_name := product_name, product_variant := product_variant,
           budget_usd := budget_usd, currency := currency,
           allowed_retailers := allowed_retailers, rules := rules,
           canonical_listings := canonical_listings }

/-- `AgentOutput` (schema.py). -/
structure AgentOutput where
  raw_text : String
  captured_at : String
  source : Option String
deriving DecidableEq

def AgentOutput.from_dict (d : List (String × Json)) : Except String AgentOutput := do
  let raw_text ← require_str d "raw_text"
  let captured_at ← require_str d "captured_at"
  let _ ← checkIso captured_at
  let source ← opt_str d "source"
  return { raw_text := raw_text, captured_at := captured_at, source := source }

/-- `EvidenceItem` (schema.py). -/
structure EvidenceItem where
  retailer : String
  url : String
  price_usd : Option ℚ
  availability : Option String
  seller : Option String
  timestamp : String
  variant_match : Option Bool
  listing_id : Option String
  listing_id_type : Option String
  notes : Option String
deriving DecidableEq

def EvidenceItem.from_dict (d : List (String × Json)) : Except String EvidenceItem := do
  let timestamp ← require_str d "timestamp"
  let _ ← checkIso timestamp
  let retailer ← require_str d "retailer"
  let url ← require_str d "url"
  let price_usd ← opt_float d "price_usd"
  let availability ← opt_str d "availability"
  let seller ← opt_str d "seller"
  let variant_match ← opt_bool d "variant_match"
  let listing_id ← opt_str d "listing_id"
  let listing_id_type ← opt_str d "listing_id_type"
  let notes ← opt_str d "notes"
  return { retailer := retailer, url := url, price_usd := price_usd,
           availability := availability, seller := seller, timestamp := timestamp,
           variant_match := variant_match, listing_id := listing_id,
           listing_id_type := listing_id_type, notes := notes }

/-- `CaseStudy` (schema.py). -/
structure CaseStudy where
  version : String
  id : String
  title : String
  created_at : String
  agent : AgentSpec
  task : TaskSpec
  agent_output : AgentOutput
  evidence : List EvidenceItem
  notes : Option String
deriving DecidableEq

def CaseStudy.from_dict (d : List (String × Json)) : Except String CaseStudy := do
  let version ← require_str d "version"
  let id_value ← require_str d "id"
  let title ← require_str d "title"
  let created_at ← require_str d "created_at"
  let _ ← checkIso created_at
  let agentDict ← require_dict d "agent"
  let agent ← AgentSpec.from_dict agentDict
  let taskDict ← require_dict d "task"
  let task ← TaskSpec.from_dict taskDict
  let outputDict ← require_dict d "agent_output"
  let agent_output ← AgentOutput.from_dict outputDict
  let rawEvidence ← require_list d "evidence"
  let evidence ← rawEvidence.mapM (fun j => do EvidenceItem.from_dict (← asObj j))
  let notes ← opt_str d "notes"
  return { version := version, id := id_value, title := title, created_at := created_at,
           agent := agent, task := task, agent_output := agent_output,
           evidence := evidence, notes := notes }

/- ## src/core/evaluator.py -/

/-- `EvaluationResult` (evaluator.py): every field independently optional. -/
structure EvaluationResult where
  best_first_party_price_usd : Option ℚ
  best_first_party_retailer : Option String
  agent_chosen_price_usd : Option ℚ
  agent_chosen_retailer : Option String
  agent_choice_qualified : Option Bool
  found_best_first_party_price : Option Bool
  within_budget : Option Bool
  money_left_on_table_usd : Option ℚ
deriving DecidableEq

/-- The retailer → expected first-party seller substring table of
`_is_first_party`, looked up on the stripped, lowercased retailer name. -/
def expected_seller_for (retailer : String) : Option String :=
  let r := lowerL (stripL retailer.data)
  if r = ("amazon".data) then some "amazon.com"
  else if r = ("best buy".data) then some "best buy"
  else if r = ("apple".data) then some "apple"
  else none

/-- `_is_first_party`. -/
def is_first_party (item : EvidenceItem) : Bool :=
  match item.seller with
  | none => false
  | some sl =>
    match expected_seller_for item.retailer with
    | none => false
    | some e => hasSub e.data (lowerL (stripL sl.data))

/-- The refurbished-signal keywords of `_looks_refurbished`. -/
def refurbTokens : List String := ["refurb", "renewed", "open-box", "used"]

/-- Python `" ".join`. -/
def joinSpace : List (List Char) → List Char
  | [] => []
  | [x] => x
  | x :: xs => x ++ ' ' :: joinSpace xs

/-- `_looks_refurbished`: the truthy parts among availability, notes, seller
are lowercased and joined with spaces; any keyword occurring as a substring of
the joined text is a refurbished signal. -/
def looks_refurbished (item : EvidenceItem) : Bool :=
  let parts := ([item.availability, item.notes, item.seller].filterMap id).filter
    (fun s => !s.data.isEmpty)
  let haystack := joinSpace (parts.map (fun s => lowerL s.data))
  refurbTokens.any (fun t => hasSub t.data haystack)

/-- `_qualifies`. -/
def qualifies (item : EvidenceItem) (rules : TaskRules) : Bool :=
  if item.price_usd = none then false
  else if rules.require_full_set && !(item.variant_match = some true) then false
  else if !rules.allow_refurbished && looks_refurbished item then false
  else if !rules.allow_third_party && !is_first_party item then false
  else true

/-- `_prices_equal`: both known and within the 1-cent tolerance. -/
def prices_equal (l r : Option ℚ) : Bool :=
  match l, r with
  | some a, some b => |a - b| < 1 / 100
  | _, _ => false

/-- URL tier of `_match_offer_to_evidence`: exact URL equality, first hit
wins; Python string truthiness is `≠ ""`. -/
def matchByUrl (o : ParsedOffer) (evidence : List EvidenceItem) : Option EvidenceItem :=
  match o.url with
  | some u => if u ≠ "" then evidence.find? (fun i => i.url = u) else none
  | none => none

/-- Retailer tier of `_match_offer_to_evidence`: a match only when exactly one
evidence item carries the offer's retailer. -/
def matchByRetailer (o : ParsedOffer) (evidence : List EvidenceItem) : Option EvidenceItem :=
  if o.retailer ≠ "" then
    match evidence.filter (fun i => i.retailer = o.retailer) with
    | [m] => some m
    | _ => none
  else none

/-- `_match_offer_to_evidence`: the URL tier first, then the retailer tier. -/
def match_offer_to_evidence (offer : Option ParsedOffer) (evidence : List EvidenceItem) :
    Option EvidenceItem :=
  match offer with
  | none => none
  | some o =>
    match matchByUrl o evidence with
    | some i => some i
    | none => matchByRetailer o evidence

/-- Python `round(x, 2)` modelled exactly on rationals: round half to even at
two decimal places. -/
def roundHalfEven (q : ℚ) : ℤ :=
  let f := ⌊q⌋
  if q - f < 1 / 2 then f
  else if q - f > 1 / 2 then f + 1
  else if f % 2 = 0 then f else f + 1

def round2 (q : ℚ) : ℚ := (roundHalfEven (q * 100) : ℚ) / 100

/- The locals of `evaluate_case_study`, as named definitions in the order the
source computes them. -/

def parsedOf (cs : CaseStudy) : ParsedAgentOutput :=
  parse_agent_output cs.agent_output.raw_text

def qualifyingItems (cs : CaseStudy) : List EvidenceItem :=
  cs.evidence.filter (fun i => qualifies i cs.task.rules)

def qualifyingWithPrice (cs : CaseStudy) : List EvidenceItem :=
  (qualifyingItems cs).filter (fun i => i.price_usd.isSome)

/-- The sort key `item.price_usd or float("inf")` of the `min(...)` call:
a missing price — and, by Python falsiness, also a price of exactly `0.0` —
becomes `+inf`, modelled as `none`. -/
def priceKey (i : EvidenceItem) : Option ℚ :=
  match i.price_usd with
  | some p => if p = 0 then none else some p
  | none => none

/-- Strict comparison of sort keys with `none` as `+inf`. -/
def keyLt : Option ℚ → Option ℚ → Bool
  | some a, some b => a < b
  | some _, none => true
  | none, _ => false

/-- Python `min(xs, key=...)`: left fold keeping the current best, replacing
it only on a strictly smaller key, so the first minimum wins ties. -/
def bestItem (cs : CaseStudy) : Option EvidenceItem :=
  match qualifyingWithPrice cs with
  | [] => none
  | x :: xs => some (xs.foldl (fun b i => if keyLt (priceKey i) (priceKey b) then i else b) x)

def chosenOffer (cs : CaseStudy) : Option ParsedOffer := (parsedOf cs).chosen

def chosenEvidence (cs : CaseStudy) : Option EvidenceItem :=
  match_offer_to_evidence (chosenOffer cs) cs.evidence

/-- `agent_chosen_price` and `agent_chosen_retailer`: the parser's values,
overridden by the matched evidence item whenever it has a known price. -/
def agentChosenPR (cs : CaseStudy) : Option ℚ × Option String :=
  let base : Option ℚ × Option String := match chosenOffer cs with
    | some o => (o.price_usd, some o.retailer)
    | none => (none, none)
  match chosenEvidence cs with
  | some e => if e.price_usd.isSome then (e.price_usd, some e.retailer) else base
  | none => base

def agentChosenPrice (cs : CaseStudy) : Option ℚ := (agentChosenPR cs).1

def agentChosenRetailer (cs : CaseStudy) : Option String := (agentChosenPR cs).2

def agentChoiceQualified (cs : CaseStudy) : Option Bool :=
  (chosenEvidence cs).map (fun e => qualifies e cs.task.rules)

/-- Python truthiness of an optional string. -/
def optStrTruthy : Option String → Bool
  | none => false
  | some s => s ≠ ""

/-- `found_best`: defined only when a best item and a chosen price exist;
`false` when the choice is known-disqualified; otherwise price equality within
tolerance, strengthened by retailer equality when both retailers are truthy. -/
def foundBest (cs : CaseStudy) : Option Bool :=
  match bestItem cs, agentChosenPrice cs with
  | some b, some p =>
    if agentChoiceQualified cs = some false then some false
    else
      let fb := prices_equal (some p) b.price_usd
      let fb := if optStrTruthy (agentChosenRetailer cs) && b.retailer ≠ "" then
          fb && (agentChosenRetailer cs = some b.retailer) else fb
      some fb
  | _, _ => none

def withinBudgetRes (cs : CaseStudy) : Option Bool :=
  match cs.task.budget_usd, agentChosenPrice cs with
  | some bud, some p => some (p ≤ bud)
  | _, _ => none

def moneyLeft (cs : CaseStudy) : Option ℚ :=
  match bestItem cs, agentChosenPrice cs with
  | some b, some p =>
    match b.price_usd with
    | some bp =>
      if agentChoiceQualified cs = some false then none
      else some (if p - bp > 0 then round2 (p - bp) else 0)
    | none => none
  | _, _ => none

/-- `evaluate_case_study`. -/
def evaluate_case_study (cs : CaseStudy) : EvaluationResult :=
  { best_first_party_price_usd := (bestItem cs).bind (fun b => b.price_usd)
    best_first_party_retailer := (bestItem cs).map (fun b => b.retailer)
    agent_chosen_price_usd := agentChosenPrice cs
    agent_chosen_retailer := agentChosenRetailer cs
    agent_choice_qualified := agentChoiceQualified cs
    found_best_first_party_price := foundBest cs
    within_budget := withinBudgetRes cs
    money_left_on_table_usd := moneyLeft cs }

/- ## Lemmas about the string utilities -/

theorem charOfNat_toNat {n : Nat} (h : n < 55296) : (Char.ofNat n).toNat = n := by
  unfold Char.ofNat
  rw [dif_pos (Or.inl h)]
  rfl

theorem isPyWs_asciiLower (c : Char) : isPyWs (asciiLower c) = isPyWs c := by
  unfold asciiLower
  split
  · rename_i h
    obtain ⟨h1, h2⟩ := h
    have ht : (Char.ofNat (c.toNat + 32)).toNat = c.toNat + 32 := charOfNat_toNat (by omega)
    have hA : isPyWs (Char.ofNat (c.toNat + 32)) = false := by
      simp only [isPyWs, ht, Bool.or_eq_false_iff, decide_eq_false_iff_not]
      omega
    have hB : isPyWs c = false := by
      simp only [isPyWs, Bool.or_eq_false_iff, decide_eq_false_iff_not]
      omega
    rw [hA, hB]
  · rfl

theorem hasSub_iff (pat s : List Char) : hasSub pat s = true ↔ pat <:+: s := by
  induction s with
  | nil =>
    simp only [hasSub, List.isEmpty_iff, List.infix_nil]
  | cons c t ih =>
    simp only [hasSub, Bool.or_eq_true, List.isPrefixOf_iff_prefix, ih, List.infix_cons_iff]

theorem slGo_pieces (cur s : List Char) : ∀ l ∈ slGo cur s, l <:+: (cur.reverse ++ s) := by
  induction cur, s using slGo.induct with
  | case1 cur hemp =>
    intro l hl
    unfold slGo at hl
    rw [if_pos hemp] at hl
    simp at hl
  | case2 cur hemp =>
    intro l hl
    unfold slGo at hl
    rw [if_neg hemp] at hl
    simp only [List.mem_singleton] at hl
    subst hl
    simp only [List.append_nil]
    exact List.infix_refl _
  | case3 cur t ih =>
    intro l hl
    unfold slGo at hl
    rcases List.mem_cons.1 hl with rfl | hmem
    · exact (List.prefix_append _ _).isInfix
    · have h1 := ih l hmem
      simp only [List.reverse_nil, List.nil_append] at h1
      refine h1.trans (List.IsSuffix.isInfix ?_)
      exact ⟨cur.reverse ++ ['\x0d', '\n'], by simp⟩
  | case4 cur c t hne hbr ih =>
    intro l hl
    rw [slGo] at hl
    rw [if_pos hbr] at hl
    rcases List.mem_cons.1 hl with rfl | hmem
    · exact (List.prefix_append _ _).isInfix
    · have h1 := ih l hmem
      simp only [List.reverse_nil, List.nil_append] at h1
      refine h1.trans (List.IsSuffix.isInfix ?_)
      exact ⟨cur.reverse ++ [c], by simp⟩
    exact hne
  | case5 cur c t hne hbr ih =>
    intro l hl
    rw [slGo] at hl
    rw [if_neg hbr] at hl
    · have h1 := ih l hl
      simp only [List.reverse_cons, List.append_assoc, List.singleton_append] at h1
      exact h1
    exact hne

theorem stripL_infix_self (s : List Char) : stripL s <:+: s := by
  unfold stripL
  have h1 : s.dropWhile isPyWs <:+ s := List.dropWhile_suffix _
  have h2 : (s.dropWhile isPyWs).reverse.dropWhile isPyWs <:+ (s.dropWhile isPyWs).reverse :=
    List.dropWhile_suffix _
  have h3 := (List.reverse_prefix).2 h2
  rw [List.reverse_reverse] at h3
  exact h3.isInfix.trans h1.isInfix

theorem rstripColons_isPre (s : List Char) : rstripColons s <+: s := by
  unfold rstripColons
  have h : s.reverse.dropWhile (· = ':') <:+ s.reverse := List.dropWhile_suffix _
  have h2 := (List.reverse_prefix).2 h
  rwa [List.reverse_reverse] at h2

theorem lowerL_infix_mono {l m : List Char} (h : l <:+: m) : lowerL l <:+: lowerL m :=
  List.IsInfix.map asciiLower h

theorem ciStarts_imp : ∀ (pat s : List Char), ciStarts pat s = true → pat <+: lowerL s
  | [], _, _ => List.nil_prefix
  | p :: ps, [], h => by simp [ciStarts] at h
  | p :: ps, c :: cs, h => by
    simp only [ciStarts, Bool.and_eq_true, decide_eq_true_eq] at h
    obtain ⟨rfl, h2⟩ := h
    obtain ⟨t, ht⟩ := ciStarts_imp ps cs h2
    exact ⟨t, by simp only [lowerL, List.map_cons, List.cons_append, ht]⟩

theorem infix_dropWhile_iff (p : Char → Bool) (c : Char) (pat : List Char) (hc : p c = false) :
    ∀ s : List Char, ((c :: pat) <:+: s.dropWhile p) ↔ ((c :: pat) <:+: s)
  | [] => by simp [List.dropWhile_nil]
  | x :: t => by
    by_cases hx : p x
    · rw [List.dropWhile_cons, if_pos hx, infix_dropWhile_iff p c pat hc t]
      constructor
      · intro h
        exact h.trans (List.suffix_cons x t).isInfix
      · intro h
        rcases List.infix_cons_iff.1 h with hpre | hinf
        · rcases List.prefix_cons_iff.1 hpre with hnil | ⟨t', ht', _⟩
          · exact absurd hnil (by simp)
          · have hcx : c = x := by
              have := congrArg (fun l => List.head? l) ht'
              simpa using this
            rw [← hcx, hc] at hx
            exact absurd hx (by simp)
        · exact hinf
    · rw [List.dropWhile_cons, if_neg hx]

theorem infix_stripL_iff {pat : List Char} {c d : Char} {mid mid' : List Char}
    (hpat : pat = c :: mid) (hpatr : pat.reverse = d :: mid')
    (hc : isPyWs c = false) (hd : isPyWs d = false) (s : List Char) :
    (pat <:+: stripL s) ↔ (pat <:+: s) := by
  unfold stripL
  constructor
  · intro h
    exact h.trans (stripL_infix_self s)
  · intro h
    have hstep1 : pat <:+: s.dropWhile isPyWs := by
      rw [hpat] at h ⊢
      exact (infix_dropWhile_iff isPyWs c mid hc s).2 h
    have hstep2 : pat.reverse <:+: (s.dropWhile isPyWs).reverse :=
      by simpa using List.reverse_infix.2 hstep1
    have hstep3 : pat.reverse <:+: (s.dropWhile isPyWs).reverse.dropWhile isPyWs := by
      rw [hpatr] at hstep2 ⊢
      exact (infix_dropWhile_iff isPyWs d mid' hd _).2 hstep2
    have hstep4 := List.reverse_infix.2 hstep3
    rwa [List.reverse_reverse] at hstep4

theorem dropWhile_isPyWs_lowerL (s : List Char) :
    (lowerL s).dropWhile isPyWs = lowerL (s.dropWhile isPyWs) := by
  unfold lowerL
  rw [List.dropWhile_map]
  congr 2
  funext c
  exact isPyWs_asciiLower c

theorem lowerL_reverse (s : List Char) : lowerL s.reverse = (lowerL s).reverse := by
  simp [lowerL]

theorem stripL_lowerL (s : List Char) : stripL (lowerL s) = lowerL (stripL s) := by
  unfold stripL
  rw [dropWhile_isPyWs_lowerL, ← lowerL_reverse, dropWhile_isPyWs_lowerL, ← lowerL_reverse]

theorem prefix_append_space_iff : ∀ (tok x y : List Char), ' ' ∉ tok →
    ((tok <+: x ++ ' ' :: y) ↔ tok <+: x)
  | [], x, y, _ => by simp
  | t :: tk, [], y, hsp => by
    simp only [List.nil_append]
    constructor
    · intro h
      have ht : t = ' ' := (List.cons_prefix_cons.1 h).1
      exact absurd (ht ▸ List.mem_cons_self t tk) hsp
    · intro h
      exact absurd h (by simp)
  | t :: tk, x0 :: xs, y, hsp => by
    simp only [List.cons_append, List.cons_prefix_cons]
    have ih := prefix_append_space_iff tk xs y (fun hm => hsp (List.mem_cons_of_mem t hm))
    exact and_congr_right (fun _ => ih)

theorem infix_append_space_iff (tok : List Char) (hne : tok ≠ []) (hsp : ' ' ∉ tok) :
    ∀ (x y : List Char), (tok <:+: x ++ ' ' :: y) ↔ (tok <:+: x ∨ tok <:+: y)
  | [], y => by
    simp only [List.nil_append, List.infix_cons_iff, List.infix_nil]
    have hnp : ¬ (tok <+: ' ' :: y) := by
      intro h
      obtain ⟨t0, tk, rfl⟩ := List.exists_cons_of_ne_nil hne
      have ht : t0 = ' ' := (List.cons_prefix_cons.1 h).1
      exact hsp (ht ▸ List.mem_cons_self t0 tk)
    simp [hnp, hne]
  | x0 :: xs, y => by
    simp only [List.cons_append, @List.infix_cons_iff Char tok x0 (xs ++ ' ' :: y),
      @List.infix_cons_iff Char tok x0 xs]
    rw [infix_append_space_iff tok hne hsp xs y]
    have hp : (tok <+: x0 :: (xs ++ ' ' :: y)) ↔ (tok <+: x0 :: xs) := by
      have := prefix_append_space_iff tok (x0 :: xs) y hsp
      simpa using this
    rw [hp]
    tauto

theorem infix_joinSpace_iff (tok : List Char) (hne : tok ≠ []) (hsp : ' ' ∉ tok) :
    ∀ parts : List (List Char), (tok <:+: joinSpace parts) ↔ ∃ p ∈ parts, tok <:+: p
  | [] => by simp [joinSpace, List.infix_nil, hne]
  | [x] => by simp [joinSpace]
  | x :: y :: ys => by
    rw [show joinSpace (x :: y :: ys) = x ++ ' ' :: joinSpace (y :: ys) from rfl]
    rw [infix_append_space_iff tok hne hsp x (joinSpace (y :: ys))]
    rw [infix_joinSpace_iff tok hne hsp (y :: ys)]
    simp

/- ## Claim-side predicates for the qualification rules (C1) -/

/-- The claim's first-party notion: the item has seller text whose lowercase
form contains the retailer-specific expected substring; items with no seller
text, or retailers with no configured substring, are never first-party. -/
def FirstPartyClaim (item : EvidenceItem) : Prop :=
  ∃ sl e, item.seller = some sl ∧ expected_seller_for item.retailer = some e ∧
    hasSub e.data (lowerL sl.data) = true

/-- The claim's refurbished signal: some present text among availability,
seller, notes contains, case-insensitively, one of the keywords. -/
def RefurbSignalClaim (item : EvidenceItem) : Prop :=
  ∃ t ∈ refurbTokens, ∃ p ∈ [item.availability, item.seller, item.notes].filterMap id,
    hasSub t.data (lowerL p.data) = true

theorem hasSub_lowerL_stripL_iff {e : List Char} {c d : Char} {mid mid' : List Char}
    (hpat : e = c :: mid) (hpatr : e.reverse = d :: mid')
    (hc : isPyWs c = false) (hd : isPyWs d = false) (sl : List Char) :
    hasSub e (lowerL (stripL sl)) = hasSub e (lowerL sl) := by
  rw [← stripL_lowerL]
  apply Bool.eq_iff_iff.mpr
  rw [hasSub_iff, hasSub_iff]
  exact infix_stripL_iff hpat hpatr hc hd (lowerL sl)

theorem mem_filterMap_id3 (a b c : Option String) (p : String) :
    p ∈ ([a, b, c].filterMap id) ↔ (a = some p ∨ b = some p ∨ c = some p) := by
  simp only [List.mem_filterMap, List.mem_cons, List.mem_singleton, id_eq,
    List.not_mem_nil, or_false]
  constructor
  · rintro ⟨x, (rfl | rfl | rfl), hx⟩
    · exact Or.inl hx
    · exact Or.inr (Or.inl hx)
    · exact Or.inr (Or.inr hx)
  · rintro (h | h | h)
    · exact ⟨a, Or.inl rfl, h⟩
    · exact ⟨b, Or.inr (Or.inl rfl), h⟩
    · exact ⟨c, Or.inr (Or.inr rfl), h⟩

theorem is_first_party_iff (item : EvidenceItem) :
    is_first_party item = true ↔ FirstPartyClaim item := by
  unfold is_first_party FirstPartyClaim
  cases hs : item.seller with
  | none => simp
  | some sl =>
    cases he : expected_seller_for item.retailer with
    | none => simp
    | some e =>
      have hsubst : hasSub e.data (lowerL (stripL sl.data)) = hasSub e.data (lowerL sl.data) := by
        simp only [expected_seller_for] at he
        split_ifs at he
        · cases he
          exact @hasSub_lowerL_stripL_iff ("amazon.com".data) 'a' 'm' ("mazon.com".data)
            ("oc.nozama".data) (by decide) (by decide) (by decide) (by decide) sl.data
        · cases he
          exact @hasSub_lowerL_stripL_iff ("best buy".data) 'b' 'y' ("est buy".data)
            ("ub tseb".data) (by decide) (by decide) (by decide) (by decide) sl.data
        · cases he
          exact @hasSub_lowerL_stripL_iff ("apple".data) 'a' 'e' ("pple".data)
            ("lppa".data) (by decide) (by decide) (by decide) (by decide) sl.data
      simp only [hsubst, Option.some.injEq]
      constructor
      · intro h
        exact ⟨sl, e, rfl, rfl, h⟩
      · rintro ⟨sl2, e2, rfl, rfl, h⟩
        exact h

theorem refurb_part_iff (item : EvidenceItem) (tok : List Char) (htne : tok ≠ [])
    (htsp : ' ' ∉ tok) :
    (hasSub tok (joinSpace (((([item.availability, item.notes, item.seller].filterMap id).filter
        (fun s => !s.data.isEmpty)).map (fun s => lowerL s.data)))) = true)
      ↔ ∃ p ∈ [item.availability, item.seller, item.notes].filterMap id,
          hasSub tok (lowerL p.data) = true := by
  rw [hasSub_iff, infix_joinSpace_iff tok htne htsp]
  constructor
  · rintro ⟨lp, hlp, hin⟩
    rw [List.mem_map] at hlp
    obtain ⟨p, hp, rfl⟩ := hlp
    have hp2 := List.mem_of_mem_filter hp
    refine ⟨p, ?_, (hasSub_iff _ _).2 hin⟩
    rw [mem_filterMap_id3] at hp2
    rw [mem_filterMap_id3]
    tauto
  · rintro ⟨p, hp, hin⟩
    rw [hasSub_iff] at hin
    by_cases hemp : p.data.isEmpty
    · rw [List.isEmpty_iff] at hemp
      rw [hemp] at hin
      simp only [lowerL, List.map_nil, List.infix_nil] at hin
      exact absurd hin htne
    · refine ⟨lowerL p.data, ?_, hin⟩
      rw [List.mem_map]
      refine ⟨p, List.mem_filter.2 ⟨?_, by simp [hemp]⟩, rfl⟩
      rw [mem_filterMap_id3] at hp
      rw [mem_filterMap_id3]
      tauto

theorem looks_refurbished_iff (item : EvidenceItem) :
    looks_refurbished item = true ↔ RefurbSignalClaim item := by
  have hTok : ∀ t ∈ refurbTokens, t.data ≠ [] ∧ ' ' ∉ t.data := by decide
  unfold looks_refurbished RefurbSignalClaim
  rw [List.any_eq_true]
  constructor
  · rintro ⟨t, ht, h⟩
    obtain ⟨h1, h2⟩ := hTok t ht
    exact ⟨t, ht, (refurb_part_iff item t.data h1 h2).1 h⟩
  · rintro ⟨t, ht, h⟩
    obtain ⟨h1, h2⟩ := hTok t ht
    exact ⟨t, ht, (refurb_part_iff item t.data h1 h2).2 h⟩

/-- C1: an evidence item qualifies under the task rules iff (1) it has a known
price, (2) third-party sellers are allowed or the item is first-party (its
seller text contains the retailer-specific expected substring; no seller text
or no configured substring is never first-party), (3) refurbished listings are
allowed or none of the availability, seller, notes texts contains a
refurbished keyword case-insensitively, and (4) full-variant-set match is not
required or the variant-match flag is explicitly true. -/
theorem c1_qualification_iff (item : EvidenceItem) (rules : TaskRules) :
    qualifies item rules = true ↔
      (item.price_usd ≠ none
        ∧ (rules.allow_third_party = true ∨ FirstPartyClaim item)
        ∧ (rules.allow_refurbished = true ∨ ¬ RefurbSignalClaim item)
        ∧ (rules.require_full_set = true → item.variant_match = some true)) := by
  have hFP := is_first_party_iff item
  have hRF := looks_refurbished_iff item
  unfold qualifies
  split_ifs with h1 h2 h3 h4
  · simp only [false_iff]
    rintro ⟨hp, -, -, -⟩
    exact hp h1
  · simp only [Bool.and_eq_true, Bool.not_eq_true', decide_eq_false_iff_not] at h2
    simp only [false_iff]
    rintro ⟨-, -, -, hv⟩
    exact h2.2 (hv h2.1)
  · simp only [Bool.and_eq_true, Bool.not_eq_true'] at h3
    simp only [false_iff]
    rintro ⟨-, -, hr, -⟩
    rcases hr with hr | hr
    · rw [h3.1] at hr
      cases hr
    · exact hr (hRF.1 h3.2)
  · simp only [Bool.and_eq_true, Bool.not_eq_true'] at h4
    simp only [false_iff]
    rintro ⟨-, hf, -, -⟩
    rcases hf with hf | hf
    · rw [h4.1] at hf
      cases hf
    · have := hFP.2 hf
      rw [h4.2] at this
      cases this
  · simp only [true_iff]
    refine ⟨h1, ?_, ?_, ?_⟩
    · by_cases ha : rules.allow_third_party = true
      · exact Or.inl ha
      · right
        rw [← hFP]
        by_contra hifp
        rw [Bool.not_eq_true] at ha hifp
        exact h4 (by simp [ha, hifp])
    · by_cases ha : rules.allow_refurbished = true
      · exact Or.inl ha
      · right
        rw [← hRF]
        intro hlr
        rw [Bool.not_eq_true] at ha
        exact h3 (by simp [ha, hlr])
    · intro hreq
      by_contra hv
      exact h2 (by simp [hreq, hv])

/-- Concrete qualification example (spec §8): first-party Amazon listing at
100.00 with explicit variant match, under the strictest rules. -/
def item8W : EvidenceItem :=
  { retailer := "Amazon", url := "https://amazon.example/a", price_usd := some 100
    availability := some "In stock", seller := some "Amazon.com LLC"
    timestamp := "2025-01-01T00:00:00Z", variant_match := some true
    listing_id := none, listing_id_type := none, notes := none }

def rules8W : TaskRules := ⟨false, false, true⟩

/-- Witness for C1 at a concrete item and rules. -/
theorem c1_witness : qualifies item8W rules8W = true :=
  (c1_qualification_iff item8W rules8W).mpr
    ⟨by decide,
     Or.inr ⟨"Amazon.com LLC", "amazon.com", rfl, by decide, by decide⟩,
     Or.inr (by unfold RefurbSignalClaim refurbTokens; decide),
     fun _ => rfl⟩

/- ## C7: first-match-wins capture -/

/-- Python dict lookup on the modelled `offers_by_retailer`. -/
def lookupAssoc : List (String × RawFields) → String → Option RawFields
  | [], _ => none
  | (k, f) :: rest, key => if k = key then some f else lookupAssoc rest key

theorem capPrice_frame (f : RawFields) (line : List Char) :
    (capPrice f line).url = f.url ∧ (capPrice f line).availability = f.availability ∧
    (capPrice f line).seller = f.seller ∧ (capPrice f line).variant_match = f.variant_match := by
  unfold capPrice
  cases scanFor priceMatchAt line
  · exact ⟨rfl, rfl, rfl, rfl⟩
  · split_ifs <;> exact ⟨rfl, rfl, rfl, rfl⟩

theorem capPrice_keep (f : RawFields) (line : List Char) (h : fieldFalsy f.price = false) :
    (capPrice f line).price = f.price := by
  unfold capPrice
  cases scanFor priceMatchAt line
  · rfl
  · simp [h]

theorem capUrl_frame (f : RawFields) (line : List Char) :
    (capUrl f line).price = f.price ∧ (capUrl f line).availability = f.availability ∧
    (capUrl f line).seller = f.seller ∧ (capUrl f line).variant_match = f.variant_match := by
  unfold capUrl
  cases scanFor urlMatchAt line
  · exact ⟨rfl, rfl, rfl, rfl⟩
  · split_ifs <;> exact ⟨rfl, rfl, rfl, rfl⟩

theorem capUrl_keep (f : RawFields) (line : List Char) (h : fieldFalsy f.url = false) :
    (capUrl f line).url = f.url := by
  unfold capUrl
  cases scanFor urlMatchAt line
  · rfl
  · simp [h]

theorem capAvail_frame (f : RawFields) (line : List Char) :
    (capAvail f line).price = f.price ∧ (capAvail f line).url = f.url ∧
    (capAvail f line).seller = f.seller ∧ (capAvail f line).variant_match = f.variant_match := by
  unfold capAvail
  split_ifs <;> exact ⟨rfl, rfl, rfl, rfl⟩

theorem capAvail_keep (f : RawFields) (line : List Char) (h : fieldFalsy f.availability = false) :
    (capAvail f line).availability = f.availability := by
  unfold capAvail
  rw [if_neg (by simp [h])]

theorem capSeller_frame (f : RawFields) (line : List Char) :
    (capSeller f line).price = f.price ∧ (capSeller f line).url = f.url ∧
    (capSeller f line).availability = f.availability ∧
    (capSeller f line).variant_match = f.variant_match := by
  unfold capSeller
  split_ifs <;> exact ⟨rfl, rfl, rfl, rfl⟩

theorem capSeller_keep (f : RawFields) (line : List Char) (h : fieldFalsy f.seller = false) :
    (capSeller f line).seller = f.seller := by
  unfold capSeller
  rw [if_neg (by simp [h])]

theorem capVariant_frame (f : RawFields) (line : List Char) :
    (capVariant f line).price = f.price ∧ (capVariant f line).url = f.url ∧
    (capVariant f line).availability = f.availability ∧
    (capVariant f line).seller = f.seller := by
  simp only [capVariant]
  split_ifs <;> exact ⟨rfl, rfl, rfl, rfl⟩

theorem capVariant_keep (f : RawFields) (line : List Char)
    (h : fieldFalsy f.variant_match = false) :
    (capVariant f line).variant_match = f.variant_match := by
  simp only [capVariant]
  rw [if_neg (by simp [h])]

theorem capture_keeps (f : RawFields) (line : List Char) :
    (fieldFalsy f.price = false → (capture_line_fields f line).price = f.price)
  ∧ (fieldFalsy f.url = false → (capture_line_fields f line).url = f.url)
  ∧ (fieldFalsy f.availability = false → (capture_line_fields f line).availability = f.availability)
  ∧ (fieldFalsy f.seller = false → (capture_line_fields f line).seller = f.seller)
  ∧ (fieldFalsy f.variant_match = false → (capture_line_fields f line).variant_match = f.variant_match) := by
  unfold capture_line_fields
  refine ⟨?_, ?_, ?_, ?_, ?_⟩
  · intro h
    rw [(capVariant_frame _ _).1, (capSeller_frame _ _).1, (capAvail_frame _ _).1,
      (capUrl_frame _ _).1, capPrice_keep f line h]
  · intro h
    rw [(capVariant_frame _ _).2.1, (capSeller_frame _ _).2.1, (capAvail_frame _ _).2.1,
      capUrl_keep _ line (by rw [(capPrice_frame f line).1]; exact h),
      (capPrice_frame f line).1]
  · intro h
    rw [(capVariant_frame _ _).2.2.1, (capSeller_frame _ _).2.2.1,
      capAvail_keep _ line (by rw [(capUrl_frame _ _).2.1, (capPrice_frame f line).2.1]; exact h),
      (capUrl_frame _ _).2.1, (capPrice_frame f line).2.1]
  · intro h
    rw [(capVariant_frame _ _).2.2.2,
      capSeller_keep _ line
        (by rw [(capAvail_frame _ _).2.2.1, (capUrl_frame _ _).2.2.1,
          (capPrice_frame f line).2.2.1]; exact h),
      (capAvail_frame _ _).2.2.1, (capUrl_frame _ _).2.2.1, (capPrice_frame f line).2.2.1]
  · intro h
    rw [capVariant_keep _ line
        (by rw [(capSeller_frame _ _).2.2.2, (capAvail_frame _ _).2.2.2,
          (capUrl_frame _ _).2.2.2, (capPrice_frame f line).2.2.2]; exact h),
      (capSeller_frame _ _).2.2.2, (capAvail_frame _ _).2.2.2, (capUrl_frame _ _).2.2.2,
      (capPrice_frame f line).2.2.2]

theorem lookupAssoc_updateAssoc_ne : ∀ (acc : List (String × RawFields)) (k : String)
    (line : List Char) (r : String), r ≠ k →
    lookupAssoc (updateAssoc acc k line) r = lookupAssoc acc r
  | [], k, line, r, hne => by simp [updateAssoc, lookupAssoc, Ne.symm hne]
  | (k', f) :: rest, k, line, r, hne => by
    unfold updateAssoc
    by_cases hk : k' = k
    · rw [if_pos hk]
      unfold lookupAssoc
      rw [if_neg (by rw [hk]; exact fun h => hne h.symm),
        if_neg (by rw [hk]; exact fun h => hne h.symm)]
    · rw [if_neg hk]
      unfold lookupAssoc
      by_cases hr : k' = r
      · rw [if_pos hr, if_pos hr]
      · rw [if_neg hr, if_neg hr]
        exact lookupAssoc_updateAssoc_ne rest k line r hne

theorem lookupAssoc_updateAssoc_eq : ∀ (acc : List (String × RawFields)) (k : String)
    (line : List Char),
    lookupAssoc (updateAssoc acc k line) k =
      some (capture_line_fields ((lookupAssoc acc k).getD RawFields.empty) line)
  | [], k, line => by simp [updateAssoc, lookupAssoc]
  | (k', f) :: rest, k, line => by
    unfold updateAssoc
    by_cases hk : k' = k
    · rw [if_pos hk]
      unfold lookupAssoc
      rw [if_pos hk, if_pos hk]
      simp
    · rw [if_neg hk]
      unfold lookupAssoc
      rw [if_neg hk, if_neg hk]
      exact lookupAssoc_updateAssoc_eq rest k line

theorem parseLoop_keep : ∀ (lines : List (List Char)) (cur : Option String)
    (acc : List (String × RawFields)) (r : String) (f : RawFields),
    lookupAssoc acc r = some f →
    ∃ f2, lookupAssoc (parseLoop lines cur acc) r = some f2 ∧
      (fieldFalsy f.price = false → f2.price = f.price) ∧
      (fieldFalsy f.url = false → f2.url = f.url) ∧
      (fieldFalsy f.availability = false → f2.availability = f.availability) ∧
      (fieldFalsy f.seller = false → f2.seller = f.seller) ∧
      (fieldFalsy f.variant_match = false → f2.variant_match = f.variant_match)
  | [], cur, acc, r, f, hacc =>
    ⟨f, by rw [parseLoop, hacc], fun _ => rfl, fun _ => rfl, fun _ => rfl, fun _ => rfl, fun _ => rfl⟩
  | line :: rest, cur, acc, r, f, hacc => by
    rw [parseLoop]
    cases hcur : switchRetailer cur (lowerL line) with
    | none => exact parseLoop_keep rest none acc r f hacc
    | some r' =>
      by_cases hrr : r = r'
      · subst hrr
        have hlook : lookupAssoc (updateAssoc acc r line) r =
            some (capture_line_fields f line) := by
          rw [lookupAssoc_updateAssoc_eq, hacc]
          rfl
        obtain ⟨f2, h2, hk1, hk2, hk3, hk4, hk5⟩ :=
          parseLoop_keep rest (some r) (updateAssoc acc r line) r (capture_line_fields f line) hlook
        obtain ⟨hc1, hc2, hc3, hc4, hc5⟩ := capture_keeps f line
        refine ⟨f2, h2, ?_, ?_, ?_, ?_, ?_⟩
        · intro h
          rw [hk1 (by rw [hc1 h]; exact h), hc1 h]
        · intro h
          rw [hk2 (by rw [hc2 h]; exact h), hc2 h]
        · intro h
          rw [hk3 (by rw [hc3 h]; exact h), hc3 h]
        · intro h
          rw [hk4 (by rw [hc4 h]; exact h), hc4 h]
        · intro h
          rw [hk5 (by rw [hc5 h]; exact h), hc5 h]
      · have hlook : lookupAssoc (updateAssoc acc r' line) r = some f := by
          rw [lookupAssoc_updateAssoc_ne acc r' line r hrr, hacc]
        exact parseLoop_keep rest (some r') (updateAssoc acc r' line) r f hlook

/-- C7 (amended): during the parse loop, once a retailer's record holds a
non-empty captured value for a field (price, url, availability, seller,
variant-match), no later line overwrites it.  The amendment restricts the
original claim to non-empty captured values: a captured empty string —
possible for availability and seller when nothing follows the colon — is
falsy in the source's `not fields.get(...)` guard and may be replaced by a
later line's capture. -/
theorem c7_first_capture_wins (lines : List (List Char)) (cur : Option String)
    (acc : List (String × RawFields)) (r : String) (f : RawFields)
    (hacc : lookupAssoc acc r = some f) :
    ∃ f2, lookupAssoc (parseLoop lines cur acc) r = some f2 ∧
      (∀ v, f.price = some v → v ≠ [] → f2.price = some v) ∧
      (∀ v, f.url = some v → v ≠ [] → f2.url = some v) ∧
      (∀ v, f.availability = some v → v ≠ [] → f2.availability = some v) ∧
      (∀ v, f.seller = some v → v ≠ [] → f2.seller = some v) ∧
      (∀ v, f.variant_match = some v → v ≠ [] → f2.variant_match = some v) := by
  obtain ⟨f2, h2, k1, k2, k3, k4, k5⟩ := parseLoop_keep lines cur acc r f hacc
  refine ⟨f2, h2, ?_, ?_, ?_, ?_, ?_⟩
  · intro v hv hne
    rw [k1 (by rw [hv]; simpa [fieldFalsy] using hne), hv]
  · intro v hv hne
    rw [k2 (by rw [hv]; simpa [fieldFalsy] using hne), hv]
  · intro v hv hne
    rw [k3 (by rw [hv]; simpa [fieldFalsy] using hne), hv]
  · intro v hv hne
    rw [k4 (by rw [hv]; simpa [fieldFalsy] using hne), hv]
  · intro v hv hne
    rw [k5 (by rw [hv]; simpa [fieldFalsy] using hne), hv]

/-- Witness for the amended C7 at concrete inputs: a record holding a
non-empty availability survives a later availability line. -/
theorem c7_witness :
    ∃ f2, lookupAssoc (parseLoop [("Availability: In stock".data)] (some "Amazon")
        [("Amazon", ⟨none, none, some ("Sold out".data), none, none⟩)]) "Amazon" =
          some f2 ∧ f2.availability = some ("Sold out".data) := by
  obtain ⟨f2, h2, -, -, k3, -, -⟩ := c7_first_capture_wins
    [("Availability: In stock".data)] (some "Amazon")
    [("Amazon", ⟨none, none, some ("Sold out".data), none, none⟩)] "Amazon"
    ⟨none, none, some ("Sold out".data), none, none⟩ (by decide)
  exact ⟨f2, h2, k3 ("Sold out".data) rfl (by decide)⟩

/-- C7 counterexample: the claim as stated fails.  On the text
`"Amazon\nAvailability:\nAvailability: In stock"` the second line captures the
empty string for availability (first conjunct shows the capture on the record
produced by the first line, which is still empty), yet the final offer carries
the third line's value — the first mention was overwritten. -/
theorem c7_counterexample :
    (capture_line_fields RawFields.empty ("Amazon".data)) = RawFields.empty ∧
    (capture_line_fields RawFields.empty ("Availability:".data)).availability = some [] ∧
    (parse_agent_output "Amazon\nAvailability:\nAvailability: In stock").offers.map
      (fun o => o.availability) = [some "In stock"] := by
  refine ⟨by decide, by decide, by decide⟩

/- ## C8, C9, C10: schema validation -/

/-- A complete, otherwise-valid raw document with the given budget value and
evidence array. -/
def docWith (budget : Json) (evidence : Json) : List (String × Json) :=
  [("version", .str "1"), ("id", .str "cs-1"), ("title", .str "t"),
   ("created_at", .str "2025-01-01T00:00:00Z"),
   ("agent", .obj [("name", .str "agent")]),
   ("task", .obj [("product_name", .str "p"), ("budget_usd", budget),
      ("currency", .str "USD"),
      ("allowed_retailers", .arr [.str "Amazon"]),
      ("rules", .obj [("allow_third_party", .bool true), ("allow_refurbished", .bool true),
         ("require_full_set", .bool false)])]),
   ("agent_output", .obj [("raw_text", .str "report"),
      ("captured_at", .str "2025-01-01T00:00:00Z")]),
   ("evidence", evidence)]

/-- An otherwise-valid evidence object with the given price value. -/
def evidenceItemJ (price : Json) : Json :=
  .obj [("retailer", .str "Amazon"), ("url", .str "https://a.example/x"),
        ("price_usd", price), ("timestamp", .str "2025-01-01T00:00:00Z")]

def doc8 : List (String × Json) := docWith (.num (-3)) (.arr [evidenceItemJ (.num (-5))])

def doc9 : List (String × Json) := docWith (.num 100) (.arr [])

def doc10 : List (String × Json) := docWith (.bool true) (.arr [evidenceItemJ (.bool false)])

/-- C8 counterexample: a raw document carrying budget_usd = −3 and an evidence
price_usd = −5 is not rejected; construction succeeds and stores the negative
numbers verbatim. -/
theorem c8_counterexample :
    ((CaseStudy.from_dict doc8).toOption.map
      (fun cs => (cs.task.budget_usd, cs.evidence.map (fun e => e.price_usd)))) =
      some (some (-3), [some (-5)]) := by decide

/-- C8 (amended): the optional number validator accepts any integer or
floating-point value — negative numbers included — and stores it verbatim;
no non-negativity check is performed anywhere in construction. -/
theorem c8_any_number_accepted (d : List (String × Json)) (k : String) (q : ℚ)
    (h : getKey d k = some (.num q)) : opt_float d k = .ok (some q) := by
  unfold opt_float
  rw [h]

/-- Witness for the amended C8 at a concrete document and a negative value. -/
theorem c8_witness :
    opt_float [("price_usd", Json.num (-5))] "price_usd" = .ok (some (-5)) :=
  c8_any_number_accepted _ _ _ rfl

/-- C9 counterexample: a raw document whose required `evidence` field is a
present but empty list constructs successfully, with no evidence items. -/
theorem c9_counterexample :
    ((CaseStudy.from_dict doc9).toOption.map (fun cs => cs.evidence)) = some [] := by decide

/-- C9 (amended): `_require_list` checks only that the value is a list, so a
present-but-empty required list is accepted and construction succeeds with an
empty evidence sequence (non-emptiness is enforced only by
`_require_str_list`, used for `allowed_retailers`). -/
theorem c9_empty_list_accepted (d : List (String × Json)) (k : String) (items : List Json)
    (h : getKey d k = some (.arr items)) : require_list d k = .ok items := by
  unfold require_list
  rw [h]

/-- Witness for the amended C9 at a concrete document with an empty list. -/
theorem c9_witness : require_list [("evidence", Json.arr [])] "evidence" = .ok [] :=
  c9_empty_list_accepted _ _ _ rfl

/-- C10: a boolean stored in an optional number field passes the number
validator (Python `bool` subclasses `int`) and is stored as 1.0 / 0.0; a full
document with boolean budget_usd and price_usd constructs successfully with
budget 1.0 and price 0.0. -/
theorem c10_bool_passes_number (d : List (String × Json)) (k : String) (b : Bool)
    (h : getKey d k = some (.bool b)) :
    opt_float d k = .ok (some (if b then (1 : ℚ) else 0)) ∧
    ((CaseStudy.from_dict doc10).toOption.map
      (fun cs => (cs.task.budget_usd, cs.evidence.map (fun e => e.price_usd)))) =
      some (some 1, [some 0]) := by
  constructor
  · unfold opt_float
    rw [h]
  · decide

/-- Witness for C10 at a concrete document holding `true` in budget_usd. -/
theorem c10_witness :
    opt_float [("budget_usd", Json.bool true)] "budget_usd" =
      .ok (some (if true then (1 : ℚ) else 0)) ∧
    ((CaseStudy.from_dict doc10).toOption.map
      (fun cs => (cs.task.budget_usd, cs.evidence.map (fun e => e.price_usd)))) =
      some (some 1, [some 0]) :=
  c10_bool_passes_number [("budget_usd", Json.bool true)] "budget_usd" true rfl

/- ## C2: best qualifying offer -/

theorem priceKey_eq (i : EvidenceItem) (h1 : i.price_usd.isSome = true)
    (h2 : i.price_usd ≠ some 0) : priceKey i = i.price_usd := by
  unfold priceKey
  cases hp : i.price_usd with
  | none => simp [hp] at h1
  | some p =>
    have hp0 : p ≠ 0 := fun h0 => h2 (by rw [hp, h0])
    simp [hp0]

/-- Python `min` with a left fold keeping the current best: the result is an
element of the list achieving the minimal key, and every element strictly
before it has a strictly larger key (first minimum wins ties). -/
theorem foldMin_first : ∀ (xs : List EvidenceItem) (x : EvidenceItem),
    (∀ i ∈ x :: xs, ∃ p, priceKey i = some p) →
    ∃ pre b post, ∃ pb : ℚ,
      x :: xs = pre ++ b :: post ∧
      (xs.foldl (fun b i => if keyLt (priceKey i) (priceKey b) then i else b) x) = b ∧
      priceKey b = some pb ∧
      (∀ y ∈ x :: xs, ∀ py, priceKey y = some py → pb ≤ py) ∧
      (∀ y ∈ pre, ∀ py, priceKey y = some py → pb < py)
  | [], x, hall => by
    obtain ⟨px, hpx⟩ := hall x (List.mem_cons_self x [])
    refine ⟨[], x, [], px, rfl, rfl, hpx, ?_, ?_⟩
    · intro y hy py hpy
      rw [List.mem_singleton] at hy
      subst hy
      rw [hpx] at hpy
      injection hpy with h
      rw [h]
    · intro y hy
      simp at hy
  | z :: rest, x, hall => by
    rw [List.foldl_cons]
    have hx2eq : (if keyLt (priceKey z) (priceKey x) then z else x) =
        if keyLt (priceKey z) (priceKey x) then z else x := rfl
    obtain ⟨px, hpx⟩ := hall x (by simp)
    obtain ⟨pz, hpz⟩ := hall z (by simp)
    by_cases hlt : keyLt (priceKey z) (priceKey x) = true
    · -- the new element replaces the accumulator
      rw [if_pos hlt]
      have hzx : pz < px := by
        rw [hpz, hpx] at hlt
        simpa [keyLt] using hlt
      have hall2 : ∀ i ∈ z :: rest, ∃ p, priceKey i = some p := by
        intro i hi
        exact hall i (List.mem_cons_of_mem x hi)
      obtain ⟨pre', b, post', pb, hsplit, hfold, hpb, hmin, hpre⟩ := foldMin_first rest z hall2
      cases pre' with
      | nil =>
        simp only [List.nil_append] at hsplit
        have hbz : b = z := (List.cons.injEq _ _ _ _ ▸ hsplit).1.symm
        have hpbz : pb = pz := by
          rw [hbz, hpz] at hpb
          injection hpb with h
          exact h.symm
        refine ⟨[x], b, post', pb, ?_, hfold, hpb, ?_, ?_⟩
        · rw [List.singleton_append, ← hsplit]
        · intro y hy py hpy
          rcases List.mem_cons.1 hy with rfl | hy2
          · rw [hpx] at hpy
            injection hpy with h
            rw [← h, hpbz]
            exact le_of_lt hzx
          · exact hmin y hy2 py hpy
        · intro y hy py hpy
          rw [List.mem_singleton] at hy
          subst hy
          rw [hpx] at hpy
          injection hpy with h
          rw [← h, hpbz]
          exact hzx
      | cons q pre'' =>
        simp only [List.cons_append] at hsplit
        have hqz : q = z := (List.cons.injEq _ _ _ _ ▸ hsplit).1.symm
        have hrest : rest = pre'' ++ b :: post' := (List.cons.injEq _ _ _ _ ▸ hsplit).2
        have hpbz : pb < pz := hpre q (List.mem_cons_self q pre'') pz (by rw [hqz, hpz])
        refine ⟨x :: z :: pre'', b, post', pb, ?_, hfold, hpb, ?_, ?_⟩
        · simp only [List.cons_append]
          rw [hrest]
        · intro y hy py hpy
          rcases List.mem_cons.1 hy with rfl | hy2
          · rw [hpx] at hpy
            injection hpy with h
            rw [← h]
            exact le_of_lt (lt_trans hpbz hzx)
          · exact hmin y hy2 py hpy
        · intro y hy py hpy
          rcases List.mem_cons.1 hy with rfl | hy2
          · rw [hpx] at hpy
            injection hpy with h
            rw [← h]
            exact lt_trans hpbz hzx
          · exact hpre y (by rw [hqz]; exact hy2) py hpy
    · -- the accumulator survives
      rw [if_neg hlt]
      have hxz : px ≤ pz := by
        rw [hpz, hpx] at hlt
        simp only [keyLt, decide_eq_true_eq] at hlt
        exact le_of_not_lt hlt
      have hall2 : ∀ i ∈ x :: rest, ∃ p, priceKey i = some p := by
        intro i hi
        rcases List.mem_cons.1 hi with rfl | hi2
        · exact ⟨px, hpx⟩
        · exact hall i (List.mem_cons_of_mem x (List.mem_cons_of_mem z hi2))
      obtain ⟨pre', b, post', pb, hsplit, hfold, hpb, hmin, hpre⟩ := foldMin_first rest x hall2
      cases pre' with
      | nil =>
        simp only [List.nil_append] at hsplit
        have hbx : b = x := (List.cons.injEq _ _ _ _ ▸ hsplit).1.symm
        have hrest : rest = post' := (List.cons.injEq _ _ _ _ ▸ hsplit).2
        have hpbx : pb = px := by
          rw [hbx, hpx] at hpb
          injection hpb with h
          exact h.symm
        refine ⟨[], b, z :: rest, pb, ?_, hfold, hpb, ?_, ?_⟩
        · rw [List.nil_append, hbx]
        · intro y hy py hpy
          rcases List.mem_cons.1 hy with rfl | hy2
          · exact hmin y (List.mem_cons_self _ _) py hpy
          · rcases List.mem_cons.1 hy2 with rfl | hy3
            · rw [hpz] at hpy
              injection hpy with h
              rw [← h, hpbx]
              exact hxz
            · exact hmin y (List.mem_cons_of_mem x hy3) py hpy
        · intro y hy
          simp at hy
      | cons q pre'' =>
        simp only [List.cons_append] at hsplit
        have hqx : q = x := (List.cons.injEq _ _ _ _ ▸ hsplit).1.symm
        have hrest : rest = pre'' ++ b :: post' := (List.cons.injEq _ _ _ _ ▸ hsplit).2
        have hpbx : pb < px := hpre q (List.mem_cons_self q pre'') px (by rw [hqx, hpx])
        refine ⟨x :: z :: pre'', b, post', pb, ?_, hfold, hpb, ?_, ?_⟩
        · simp only [List.cons_append]
          rw [hrest]
        · intro y hy py hpy
          rcases List.mem_cons.1 hy with rfl | hy2
          · rw [hpx] at hpy
            injection hpy with h
            rw [← h]
            exact le_of_lt hpbx
          · rcases List.mem_cons.1 hy2 with rfl | hy3
            · rw [hpz] at hpy
              injection hpy with h
              rw [← h]
              exact le_of_lt (lt_of_lt_of_le hpbx hxz)
            · exact hmin y (List.mem_cons_of_mem x hy3) py hpy
        · intro y hy py hpy
          rcases List.mem_cons.1 hy with rfl | hy2
          · rw [hpx] at hpy
            injection hpy with h
            rw [← h]
            exact hpbx
          · rcases List.mem_cons.1 hy2 with rfl | hy3
            · rw [hpz] at hpy
              injection hpy with h
              rw [← h]
              exact lt_of_lt_of_le hpbx hxz
            · exact hpre y (List.mem_cons_of_mem q hy3) py hpy

/-- C2 (amended): when no qualifying item is priced exactly 0, the best
qualifying offer is the qualifying item with the minimum known price, the
first in evidence order winning ties; with no qualifying item both best-price
and best-retailer are unknown.  The amendment excludes 0.0 prices: the
`min` key `item.price_usd or float("inf")` is a truthiness test, so a price
of exactly 0.0 is treated as `+inf` rather than as the smallest price. -/
theorem c2_best_qualifying_offer (cs : CaseStudy)
    (hz : ∀ i ∈ qualifyingWithPrice cs, i.price_usd ≠ some 0) :
    (qualifyingWithPrice cs = [] →
        (evaluate_case_study cs).best_first_party_price_usd = none ∧
        (evaluate_case_study cs).best_first_party_retailer = none) ∧
    (∀ x xs, qualifyingWithPrice cs = x :: xs →
      ∃ pre b post, x :: xs = pre ++ b :: post ∧
        (evaluate_case_study cs).best_first_party_price_usd = b.price_usd ∧
        (evaluate_case_study cs).best_first_party_retailer = some b.retailer ∧
        (∀ y ∈ x :: xs, ∀ pb py, b.price_usd = some pb → y.price_usd = some py → pb ≤ py) ∧
        (∀ y ∈ pre, ∀ pb py, b.price_usd = some pb → y.price_usd = some py → pb < py)) := by
  constructor
  · intro hemp
    have hb : bestItem cs = none := by
      unfold bestItem
      rw [hemp]
    constructor <;> simp [evaluate_case_study, hb]
  · intro x xs heq
    have hmem : ∀ i ∈ x :: xs, i.price_usd.isSome = true ∧ i.price_usd ≠ some 0 := by
      intro i hi
      have hin : i ∈ qualifyingWithPrice cs := heq ▸ hi
      exact ⟨(List.mem_filter.1 hin).2, hz i hin⟩
    have hall : ∀ i ∈ x :: xs, ∃ p, priceKey i = some p := by
      intro i hi
      obtain ⟨h1, h2⟩ := hmem i hi
      rw [priceKey_eq i h1 h2]
      cases hp : i.price_usd with
      | none => rw [hp] at h1; simp at h1
      | some p => exact ⟨p, rfl⟩
    obtain ⟨pre, b, post, pb, hsplit, hfold, hpb, hmin, hpre⟩ := foldMin_first xs x hall
    have hbmem : b ∈ x :: xs := by
      rw [hsplit]
      exact List.mem_append.2 (Or.inr (List.mem_cons_self _ _))
    have hbkey : priceKey b = b.price_usd := priceKey_eq b (hmem b hbmem).1 (hmem b hbmem).2
    have hpbe : b.price_usd = some pb := by rw [← hbkey]; exact hpb
    have hbest : bestItem cs = some b := by
      unfold bestItem
      rw [heq]
      simp only []
      rw [hfold]
    refine ⟨pre, b, post, hsplit, ?_, ?_, ?_, ?_⟩
    · simp [evaluate_case_study, hbest]
    · simp [evaluate_case_study, hbest]
    · intro y hy pb' py hpb' hpy
      have hcmp := hmin y hy py
        (by rw [priceKey_eq y (hmem y hy).1 (hmem y hy).2]; exact hpy)
      have hpe : pb' = pb := by
        rw [hpbe] at hpb'
        injection hpb' with h
        exact h.symm
      rw [hpe]
      exact hcmp
    · intro y hy pb' py hpb' hpy
      have hymem : y ∈ x :: xs := by
        rw [hsplit]
        exact List.mem_append.2 (Or.inl hy)
      have hcmp := hpre y hy py
        (by rw [priceKey_eq y (hmem y hymem).1 (hmem y hymem).2]; exact hpy)
      have hpe : pb' = pb := by
        rw [hpbe] at hpb'
        injection hpb' with h
        exact h.symm
      rw [hpe]
      exact hcmp

/-- Evidence item with a zero price (falsy in the `min` key). -/
def ev0W : EvidenceItem :=
  { retailer := "Amazon", url := "https://a.example/z", price_usd := some 0
    availability := none, seller := none, timestamp := "2025-01-01T00:00:00Z"
    variant_match := none, listing_id := none, listing_id_type := none, notes := none }

def ev5W : EvidenceItem :=
  { retailer := "Best Buy", url := "https://b.example/y", price_usd := some 5
    availability := none, seller := none, timestamp := "2025-01-01T00:00:00Z"
    variant_match := none, listing_id := none, listing_id_type := none, notes := none }

/-- Case study whose qualifying items are priced 0 and 5, in that order. -/
def cs2W : CaseStudy :=
  { version := "1", id := "c2", title := "t", created_at := "2025-01-01T00:00:00Z"
    agent := ⟨"agent", none, none⟩
    task := ⟨"p", none, none, "USD", ["Amazon"], ⟨true, true, false⟩, []⟩
    agent_output := ⟨"nothing relevant here", "2025-01-01T00:00:00Z", none⟩
    evidence := [ev0W, ev5W], notes := none }

/-- C2 counterexample: with qualifying prices [0, 5] the minimum known price
is 0, but the evaluator reports best price 5 at Best Buy — the claim as
stated fails on a 0.0 price. -/
theorem c2_counterexample :
    (qualifyingWithPrice cs2W).map (fun i => i.price_usd) = [some 0, some 5] ∧
    (evaluate_case_study cs2W).best_first_party_price_usd = some 5 ∧
    (evaluate_case_study cs2W).best_first_party_retailer = some "Best Buy" := by
  refine ⟨by decide, by decide, by decide⟩

def evAW : EvidenceItem :=
  { retailer := "Amazon", url := "https://amazon.example/a", price_usd := some (9999 / 100)
    availability := none, seller := none, timestamp := "2025-01-01T00:00:00Z"
    variant_match := none, listing_id := none, listing_id_type := none, notes := none }

def evBW : EvidenceItem :=
  { retailer := "Best Buy", url := "https://bestbuy.example/x", price_usd := some (195 / 2)
    availability := none, seller := none, timestamp := "2025-01-01T00:00:00Z"
    variant_match := none, listing_id := none, listing_id_type := none, notes := none }

/-- Case study with qualifying items priced 99.99 (Amazon) and 97.50 (Best
Buy) — the spec's own example. -/
def cs2X : CaseStudy :=
  { version := "1", id := "c2x", title := "t", created_at := "2025-01-01T00:00:00Z"
    agent := ⟨"agent", none, none⟩
    task := ⟨"p", none, none, "USD", ["Amazon"], ⟨true, true, false⟩, []⟩
    agent_output := ⟨"nothing relevant here", "2025-01-01T00:00:00Z", none⟩
    evidence := [evAW, evBW], notes := none }

/-- Witness for the amended C2 at the spec's 99.99 / 97.50 example. -/
theorem c2_witness :
    ∃ pre b post, evAW :: [evBW] = pre ++ b :: post ∧
      (evaluate_case_study cs2X).best_first_party_price_usd = b.price_usd ∧
      (evaluate_case_study cs2X).best_first_party_retailer = some b.retailer ∧
      (∀ y ∈ evAW :: [evBW], ∀ pb py, b.price_usd = some pb → y.price_usd = some py → pb ≤ py) ∧
      (∀ y ∈ pre, ∀ pb py, b.price_usd = some pb → y.price_usd = some py → pb < py) :=
  (c2_best_qualifying_offer cs2X (by decide)).2 evAW [evBW] (by decide)

/- ## Helper lemmas about the evaluator pipeline (C3, C4, C5) -/

theorem foldMin_mem : ∀ (xs : List EvidenceItem) (x : EvidenceItem),
    (xs.foldl (fun b i => if keyLt (priceKey i) (priceKey b) then i else b) x) ∈ x :: xs
  | [], x => List.mem_cons_self x []
  | z :: rest, x => by
    rw [List.foldl_cons]
    by_cases h : keyLt (priceKey z) (priceKey x) = true
    · rw [if_pos h]
      rcases List.mem_cons.1 (foldMin_mem rest z) with heq | hm
      · rw [heq]
        exact List.mem_cons_of_mem _ (List.mem_cons_self _ _)
      · exact List.mem_cons_of_mem _ (List.mem_cons_of_mem _ hm)
    · rw [if_neg h]
      rcases List.mem_cons.1 (foldMin_mem rest x) with heq | hm
      · rw [heq]
        exact List.mem_cons_self _ _
      · exact List.mem_cons_of_mem _ (List.mem_cons_of_mem _ hm)

theorem bestItem_mem (cs : CaseStudy) (b : EvidenceItem) (h : bestItem cs = some b) :
    b ∈ qualifyingWithPrice cs := by
  unfold bestItem at h
  cases heq : qualifyingWithPrice cs with
  | nil => rw [heq] at h; cases h
  | cons x xs =>
    rw [heq] at h
    injection h with h
    rw [← h]
    exact foldMin_mem xs x

theorem bestItem_in_evidence (cs : CaseStudy) (b : EvidenceItem) (h : bestItem cs = some b) :
    b ∈ cs.evidence := by
  have h1 := bestItem_mem cs b h
  have h2 := List.mem_of_mem_filter h1
  exact List.mem_of_mem_filter h2

theorem bestItem_price_isSome (cs : CaseStudy) (b : EvidenceItem) (h : bestItem cs = some b) :
    b.price_usd.isSome = true :=
  (List.mem_filter.1 (bestItem_mem cs b h)).2

theorem inferRetailer_mem (s : List Char) :
    (inferRetailer s).getD "Unknown" ∈ (["Amazon", "Best Buy", "Apple", "Unknown"] : List String) := by
  simp only [inferRetailer]
  split_ifs <;> simp

theorem chosenByLines_retailer : ∀ (lines : List (List Char)) (o : ParsedOffer),
    chosenByLines lines = some o →
    o.retailer ∈ (["Amazon", "Best Buy", "Apple", "Unknown"] : List String)
  | [], o, h => by cases h
  | line :: rest, o, h => by
    simp only [chosenByLines] at h
    split_ifs at h with h1 h2
    · injection h with h
      rw [← h]
      exact inferRetailer_mem _
    · exact chosenByLines_retailer rest o h

theorem chosen_retailer_mem (raw : String) (o : ParsedOffer)
    (h : (parse_agent_output raw).chosen = some o) :
    o.retailer ∈ (["Amazon", "Best Buy", "Apple", "Unknown"] : List String) := by
  unfold parse_agent_output at h
  simp only [] at h
  unfold parse_chosen_offer at h
  cases hscan : scanFor chosenMatchAt raw.data with
  | some g =>
    rw [hscan] at h
    injection h with h
    rw [← h]
    exact inferRetailer_mem g
  | none =>
    rw [hscan] at h
    exact chosenByLines_retailer _ o h

theorem chosen_retailer_ne (raw : String) (o : ParsedOffer)
    (h : (parse_agent_output raw).chosen = some o) : o.retailer ≠ "" := by
  have hm := chosen_retailer_mem raw o h
  simp only [List.mem_cons, List.not_mem_nil, or_false] at hm
  rcases hm with hm | hm | hm | hm <;> rw [hm] <;> decide

theorem stringMk_ne_empty (l : List Char) (h : l ≠ []) : String.mk l ≠ "" :=
  fun hc => h (congrArg String.data hc)

theorem urlMatchAt_ne (s u : List Char) (h : urlMatchAt s = some u) : u ≠ [] := by
  unfold urlMatchAt at h
  split_ifs at h with h1 h2 <;> simp only [] at h
  · split_ifs at h with h3
    injection h with h
    rw [← h]
    simp
  · split_ifs at h with h3
    injection h with h
    rw [← h]
    simp

theorem scanFor_url_ne : ∀ (s u : List Char), scanFor urlMatchAt s = some u → u ≠ []
  | [], u, h => by cases h
  | c :: t, u, h => by
    unfold scanFor at h
    cases hm : urlMatchAt (c :: t) with
    | some v =>
      rw [hm] at h
      injection h with h
      rw [← h]
      exact urlMatchAt_ne _ v hm
    | none =>
      rw [hm] at h
      simp only [Option.none_orElse] at h
      exact scanFor_url_ne t u h

theorem scanFor2_url_ne (a b l : List Char)
    (h : (scanFor urlMatchAt a <|> scanFor urlMatchAt b) = some l) : l ≠ [] := by
  cases hfa : scanFor urlMatchAt a with
  | some v =>
    rw [hfa] at h
    injection h with h
    rw [← h]
    exact scanFor_url_ne a v hfa
  | none =>
    rw [hfa] at h
    simp only [Option.none_orElse] at h
    exact scanFor_url_ne b l h

theorem chosenByLines_url_ne : ∀ (lines : List (List Char)) (o : ParsedOffer),
    chosenByLines lines = some o → ∀ u, o.url = some u → u ≠ ""
  | [], o, h => by cases h
  | line :: rest, o, h => by
    simp only [chosenByLines] at h
    split_ifs at h with h1 h2
    · injection h with h
      intro u hu
      rw [← h] at hu
      simp only [Option.map_eq_some'] at hu
      obtain ⟨l, hl, rfl⟩ := hu
      exact stringMk_ne_empty l (scanFor2_url_ne _ _ l hl)
    · exact chosenByLines_url_ne rest o h

theorem chosen_url_ne (raw : String) (o : ParsedOffer)
    (h : (parse_agent_output raw).chosen = some o) :
    ∀ u, o.url = some u → u ≠ "" := by
  unfold parse_agent_output at h
  simp only [] at h
  unfold parse_chosen_offer at h
  cases hscan : scanFor chosenMatchAt raw.data with
  | some g =>
    rw [hscan] at h
    injection h with h
    intro u hu
    rw [← h] at hu
    unfold offerFromText at hu
    simp only [Option.map_eq_some'] at hu
    obtain ⟨l, hl, rfl⟩ := hu
    exact stringMk_ne_empty l (scanFor_url_ne g l hl)
  | none =>
    rw [hscan] at h
    exact chosenByLines_url_ne _ o h

theorem matchByUrl_mem (o : ParsedOffer) (ev : List EvidenceItem) (i : EvidenceItem)
    (h : matchByUrl o ev = some i) : i ∈ ev := by
  unfold matchByUrl at h
  cases hu : o.url with
  | none =>
    simp only [hu] at h
    cases h
  | some u =>
    simp only [hu] at h
    split_ifs at h with h1
    exact List.mem_of_find?_eq_some h

theorem matchByRetailer_mem (o : ParsedOffer) (ev : List EvidenceItem) (m : EvidenceItem)
    (h : matchByRetailer o ev = some m) : m ∈ ev := by
  unfold matchByRetailer at h
  split_ifs at h with h1
  cases hfl : ev.filter (fun i => i.retailer = o.retailer) with
  | nil => rw [hfl] at h; cases h
  | cons m1 rest =>
    rw [hfl] at h
    cases rest with
    | nil =>
      injection h with h
      rw [← h]
      exact List.mem_of_mem_filter (by rw [hfl]; exact List.mem_cons_self m1 [])
    | cons m2 r2 => cases h

theorem match_offer_mem (offer : Option ParsedOffer) (ev : List EvidenceItem)
    (m : EvidenceItem) (h : match_offer_to_evidence offer ev = some m) : m ∈ ev := by
  unfold match_offer_to_evidence at h
  cases offer with
  | none => cases h
  | some o =>
    simp only [] at h
    cases hmu : matchByUrl o ev with
    | some i =>
      simp only [hmu] at h
      injection h with h
      rw [← h]
      exact matchByUrl_mem o ev i hmu
    | none =>
      simp only [hmu] at h
      exact matchByRetailer_mem o ev m h

theorem agentChosenPR_eq (cs : CaseStudy) :
    agentChosenPR cs =
      match chosenEvidence cs with
      | some e =>
        if e.price_usd.isSome then (e.price_usd, some e.retailer)
        else (match chosenOffer cs with
              | some o => (o.price_usd, some o.retailer)
              | none => (none, none))
      | none =>
        (match chosenOffer cs with
         | some o => (o.price_usd, some o.retailer)
         | none => (none, none)) := by
  unfold agentChosenPR
  cases chosenEvidence cs <;> cases chosenOffer cs <;> rfl

theorem agentChosen_retailer (cs : CaseStudy)
    (hret : ∀ e ∈ cs.evidence, e.retailer ≠ "") (p : ℚ)
    (hp : agentChosenPrice cs = some p) :
    ∃ s, agentChosenRetailer cs = some s ∧ s ≠ "" := by
  unfold agentChosenPrice at hp
  unfold agentChosenRetailer
  rw [agentChosenPR_eq] at hp ⊢
  cases hce : chosenEvidence cs with
  | some e =>
    simp only [hce] at hp ⊢
    by_cases hpe : e.price_usd.isSome = true
    · rw [if_pos hpe] at hp ⊢
      exact ⟨e.retailer, rfl, hret e (match_offer_mem _ _ e hce)⟩
    · rw [if_neg hpe] at hp ⊢
      cases hco : chosenOffer cs with
      | none => simp only [hco] at hp; cases hp
      | some o =>
        simp only [hco] at hp ⊢
        exact ⟨o.retailer, rfl, chosen_retailer_ne cs.agent_output.raw_text o hco⟩
  | none =>
    simp only [hce] at hp ⊢
    cases hco : chosenOffer cs with
    | none => simp only [hco] at hp; cases hp
    | some o =>
      simp only [hco] at hp ⊢
      exact ⟨o.retailer, rfl, chosen_retailer_ne cs.agent_output.raw_text o hco⟩

/-- C3: the found-best-price field is unknown unless a best qualifying item
and a known chosen price exist; it is false when the agent's choice is
known-disqualified; otherwise it is defined and true exactly when the chosen
price is within one cent of the best price and, whenever the chosen retailer
is known, it equals the best item's retailer (the best item's retailer is
always known for schema-valid evidence).  The final conjuncts check the
spec's tolerance examples: 100.00 vs 100.004 equal, 100.00 vs 100.02 not. -/
theorem c3_found_best_price (cs : CaseStudy)
    (hret : ∀ e ∈ cs.evidence, e.retailer ≠ "") :
    ((bestItem cs = none ∨ agentChosenPrice cs = none) →
        (evaluate_case_study cs).found_best_first_party_price = none) ∧
    (∀ b p pb, bestItem cs = some b → agentChosenPrice cs = some p →
        b.price_usd = some pb →
        ((agentChoiceQualified cs = some false →
            (evaluate_case_study cs).found_best_first_party_price = some false) ∧
         (agentChoiceQualified cs ≠ some false →
            ∃ v, (evaluate_case_study cs).found_best_first_party_price = some v ∧
              (v = true ↔ (|p - pb| < 1 / 100 ∧
                ∀ sc, agentChosenRetailer cs = some sc → sc = b.retailer))))) ∧
    prices_equal (some 100) (some (100 + 1 / 250)) = true ∧
    prices_equal (some 100) (some (100 + 1 / 50)) = false := by
  have hfield : (evaluate_case_study cs).found_best_first_party_price = foundBest cs := rfl
  refine ⟨?_, ?_, by decide, by decide⟩
  · intro hdis
    rw [hfield]
    rcases hdis with hb | hp
    · cases hacp : agentChosenPrice cs <;> simp only [foundBest, hb, hacp]
    · cases hbi : bestItem cs <;> simp only [foundBest, hbi, hp]
  · intro b p pb hb hp hpb
    constructor
    · intro hq
      rw [hfield]
      unfold foundBest
      simp only [hb, hp]
      rw [if_pos hq]
    · intro hq
      rw [hfield]
      unfold foundBest
      simp only [hb, hp]
      rw [if_neg hq]
      obtain ⟨s, hs, hsne⟩ := agentChosen_retailer cs hret p hp
      have hbr : b.retailer ≠ "" := hret b (bestItem_in_evidence cs b hb)
      rw [hs, hpb]
      have hcond : (optStrTruthy (some s) && decide (b.retailer ≠ "")) = true := by
        simp [optStrTruthy, hsne, hbr]
      rw [if_pos hcond]
      refine ⟨_, rfl, ?_⟩
      unfold prices_equal
      simp only [Bool.and_eq_true, decide_eq_true_eq, Option.some.injEq]
      constructor
      · rintro ⟨h1, h2⟩
        refine ⟨h1, ?_⟩
        intro sc hsc
        rw [← hsc]
        exact h2
      · rintro ⟨h1, h2⟩
        exact ⟨h1, h2 s rfl⟩

theorem round2_zero : round2 0 = 0 := by decide

/-- C4: money-left-on-the-table is unknown unless a best qualifying item with
a known price exists, a chosen price is known, and the choice is not
known-disqualified; when defined it equals the chosen price minus the best
price floored at zero, rounded to two decimal places. -/
theorem c4_money_left (cs : CaseStudy) :
    ((bestItem cs = none ∨ agentChosenPrice cs = none ∨ agentChoiceQualified cs = some false) →
        (evaluate_case_study cs).money_left_on_table_usd = none) ∧
    (∀ b p pb, bestItem cs = some b → agentChosenPrice cs = some p →
        b.price_usd = some pb → agentChoiceQualified cs ≠ some false →
        (evaluate_case_study cs).money_left_on_table_usd = some (round2 (max (p - pb) 0))) := by
  have hfield : (evaluate_case_study cs).money_left_on_table_usd = moneyLeft cs := rfl
  constructor
  · intro hdis
    rw [hfield]
    unfold moneyLeft
    rcases hdis with hb | hp | hq
    · cases hacp : agentChosenPrice cs <;> simp only [hb, hacp]
    · cases hbi : bestItem cs <;> simp only [hbi, hp]
    · cases hbi : bestItem cs with
      | none => cases hacp : agentChosenPrice cs <;> simp only [hbi, hacp]
      | some b2 =>
        cases hacp : agentChosenPrice cs with
        | none => simp only [hbi, hacp]
        | some p2 =>
          simp only [hbi, hacp]
          cases hbp : b2.price_usd with
          | none => simp only [hbp]
          | some pb2 =>
            simp only [hbp]
            rw [if_pos hq]
  · intro b p pb hb hp hpb hq
    rw [hfield]
    unfold moneyLeft
    simp only [hb, hp, hpb]
    rw [if_neg hq]
    by_cases hd : p - pb > 0
    · rw [if_pos hd, max_eq_left (le_of_lt hd)]
    · rw [if_neg hd, max_eq_right (le_of_not_lt hd), round2_zero]

/-- Apple evidence item matching the chosen offer of `csW`. -/
def evCW : EvidenceItem :=
  { retailer := "Apple", url := "https://apple.example/c", price_usd := some 102
    availability := none, seller := none, timestamp := "2025-01-01T00:00:00Z"
    variant_match := none, listing_id := none, listing_id_type := none, notes := none }

/-- Case study whose report chooses Apple at 102.00 by URL, with best
qualifying price 97.50 at Best Buy and budget 200. -/
def csW : CaseStudy :=
  { version := "1", id := "w", title := "t", created_at := "2025-01-01T00:00:00Z"
    agent := ⟨"agent", none, none⟩
    task := ⟨"p", none, some 200, "USD", ["Amazon"], ⟨true, true, false⟩, []⟩
    agent_output := ⟨"Chosen retailer + price + url: Apple $102.00 https://apple.example/c",
      "2025-01-01T00:00:00Z", none⟩
    evidence := [evAW, evBW, evCW], notes := none }

/-- Case study whose report chooses an unmatched offer at 90.00 (below the
best qualifying price 97.50). -/
def csW0 : CaseStudy :=
  { version := "1", id := "w0", title := "t", created_at := "2025-01-01T00:00:00Z"
    agent := ⟨"agent", none, none⟩
    task := ⟨"p", none, some 200, "USD", ["Amazon"], ⟨true, true, false⟩, []⟩
    agent_output := ⟨"Chosen retailer + price + url: something $90.00",
      "2025-01-01T00:00:00Z", none⟩
    evidence := [evAW, evBW], notes := none }

/-- Witness for C3 at `csW`: the chosen 102.00 is not the best 97.50, so the
found-best field is a definite false. -/
theorem c3_witness :
    (evaluate_case_study csW).found_best_first_party_price = some false := by
  have h := (c3_found_best_price csW (by decide)).2.1 evBW 102 (195 / 2)
    (by decide) (by decide) (by decide)
  obtain ⟨v, hv, hiff⟩ := h.2 (by decide)
  have hvf : v ≠ true := by
    intro hvt
    exact absurd (hiff.1 hvt).1 (by decide)
  cases v
  · exact hv
  · exact absurd rfl hvf

/-- Witness for C4: chosen 102.00 against best 97.50 leaves 4.50; chosen
90.00 (beating the best) leaves 0.00. -/
theorem c4_witness :
    (evaluate_case_study csW).money_left_on_table_usd = some (9 / 2) ∧
    (evaluate_case_study csW0).money_left_on_table_usd = some 0 := by
  constructor
  · have h := (c4_money_left csW).2 evBW 102 (195 / 2)
      (by decide) (by decide) (by decide) (by decide)
    rw [h]
    decide
  · have h := (c4_money_left csW0).2 evBW 90 (195 / 2)
      (by decide) (by decide) (by decide) (by decide)
    rw [h]
    decide

/-- C5: matching the parsed chosen offer to evidence prefers an exact URL
match (first hit in evidence order); with no url or no URL hit it matches by
retailer name exactly when a single evidence item carries that retailer, zero
or several candidates leaving the offer unmatched; and a matched item with a
known price overrides the parser's price and retailer, while otherwise the
parser's own values are used. -/
theorem c5_offer_matching (cs : CaseStudy) (o : ParsedOffer)
    (hch : chosenOffer cs = some o) :
    ((∀ u, o.url = some u → (∃ i ∈ cs.evidence, i.url = u) →
        chosenEvidence cs = cs.evidence.find? (fun i => i.url = u)) ∧
     ((o.url = none ∨ ∀ u, o.url = some u → ∀ i ∈ cs.evidence, i.url ≠ u) →
        ((∀ m, cs.evidence.filter (fun i => i.retailer = o.retailer) = [m] →
            chosenEvidence cs = some m) ∧
         ((cs.evidence.filter (fun i => i.retailer = o.retailer)).length ≠ 1 →
            chosenEvidence cs = none)))) ∧
    ((∀ m, chosenEvidence cs = some m → m.price_usd.isSome = true →
        agentChosenPrice cs = m.price_usd ∧ agentChosenRetailer cs = some m.retailer) ∧
     ((chosenEvidence cs = none ∨ ∀ m, chosenEvidence cs = some m → m.price_usd = none) →
        agentChosenPrice cs = o.price_usd ∧ agentChosenRetailer cs = some o.retailer)) := by
  have hcev : chosenEvidence cs = match_offer_to_evidence (some o) cs.evidence := by
    unfold chosenEvidence
    rw [hch]
  refine ⟨⟨?_, ?_⟩, ?_, ?_⟩
  · -- URL tier
    intro u hu hex
    have hune : u ≠ "" := chosen_url_ne cs.agent_output.raw_text o hch u hu
    cases hf : cs.evidence.find? (fun i => i.url = u) with
    | none =>
      obtain ⟨i, hi, hiu⟩ := hex
      rw [List.find?_eq_none] at hf
      exact absurd (by simpa using hiu) (hf i hi)
    | some i0 =>
      have hmu : matchByUrl o cs.evidence = some i0 := by
        unfold matchByUrl
        simp only [hu]
        rw [if_pos hune, hf]
      rw [hcev]
      unfold match_offer_to_evidence
      simp only [hmu]
  · -- retailer tier
    intro hnou
    have hmu : matchByUrl o cs.evidence = none := by
      unfold matchByUrl
      cases hu : o.url with
      | none => rfl
      | some u =>
        simp only []
        rcases hnou with hnone | hall
        · rw [hnone] at hu
          cases hu
        · split_ifs with h1
          · rw [List.find?_eq_none]
            intro i hi
            simp only [decide_eq_true_eq]
            exact hall u hu i hi
          · rfl
    have hrB : chosenEvidence cs = matchByRetailer o cs.evidence := by
      rw [hcev]
      unfold match_offer_to_evidence
      simp only [hmu]
    have hrne : o.retailer ≠ "" := chosen_retailer_ne cs.agent_output.raw_text o hch
    constructor
    · intro m hm
      rw [hrB]
      unfold matchByRetailer
      rw [if_pos hrne, hm]
    · intro hlen
      rw [hrB]
      unfold matchByRetailer
      rw [if_pos hrne]
      cases hfl : cs.evidence.filter (fun i => i.retailer = o.retailer) with
      | nil => rfl
      | cons m1 rest =>
        cases rest with
        | nil => exact absurd (by rw [hfl]; rfl) hlen
        | cons m2 r2 => rfl
  · -- override with evidence values
    intro m hm hps
    unfold agentChosenPrice agentChosenRetailer
    rw [agentChosenPR_eq]
    simp only [hm]
    rw [if_pos hps]
    exact ⟨rfl, rfl⟩
  · -- parser values kept
    intro hcase
    unfold agentChosenPrice agentChosenRetailer
    rw [agentChosenPR_eq]
    rcases hcase with hnone | hall
    · simp only [hnone, hch]
      exact ⟨trivial, trivial⟩
    · cases hce : chosenEvidence cs with
      | none =>
        simp only [hce, hch]
        exact ⟨trivial, trivial⟩
      | some e =>
        have hpe : e.price_usd = none := hall e hce
        simp only [hce, hch]
        rw [if_neg (by rw [hpe]; simp)]
        exact ⟨rfl, rfl⟩

/-- The parsed chosen offer of `csW`. -/
def oW : ParsedOffer :=
  { retailer := "Apple", price_usd := some 102, url := some "https://apple.example/c"
    availability := none, seller := none, variant_match := none
    listing_id := none, listing_id_type := none }

/-- Witness for C5 at `csW`: the chosen offer URL-matches the Apple evidence
item, whose known price and retailer become the agent-chosen values. -/
theorem c5_witness :
    chosenEvidence csW = some evCW ∧
    agentChosenPrice csW = some 102 ∧ agentChosenRetailer csW = some "Apple" := by
  have h := c5_offer_matching csW oW (by decide)
  have hce : chosenEvidence csW =
      csW.evidence.find? (fun i => i.url = "https://apple.example/c") :=
    h.1.1 "https://apple.example/c" rfl ⟨evCW, by decide, by decide⟩
  have hce2 : chosenEvidence csW = some evCW := by
    rw [hce]
    decide
  have hov := h.2.1 evCW hce2 (by decide)
  refine ⟨hce2, ?_, hov.2⟩
  rw [hov.1]
  decide

/- ## C6: the parser on pattern-free text -/

theorem mem_processed_lines (s : List Char) (l : List Char)
    (hl : l ∈ ((splitlines s).map stripL).filter (fun l => !l.isEmpty)) : l <:+: s := by
  have h1 := List.mem_of_mem_filter hl
  rw [List.mem_map] at h1
  obtain ⟨l0, hl0, rfl⟩ := h1
  have h2 : l0 <:+: s := by
    have := slGo_pieces [] s l0 hl0
    simpa using this
  exact (stripL_infix_self l0).trans h2

theorem hasSub_false_mono (pat small big : List Char) (hno : hasSub pat big = false)
    (hinf : small <:+: big) : hasSub pat small = false := by
  cases hc : hasSub pat small with
  | false => rfl
  | true =>
    have := ((hasSub_iff pat small).1 hc).trans hinf
    rw [(hasSub_iff pat big).2 this] at hno
    cases hno

theorem scanFor_suffix {α : Type} (f : List Char → Option α) :
    ∀ (s : List Char) (v : α), scanFor f s = some v → ∃ t, t <:+ s ∧ f t = some v
  | [], v, h => by cases h
  | c :: tl, v, h => by
    unfold scanFor at h
    cases hm : f (c :: tl) with
    | some w =>
      rw [hm] at h
      simp only [Option.some_orElse] at h
      exact ⟨c :: tl, List.suffix_refl _, by rw [hm, h]⟩
    | none =>
      rw [hm] at h
      simp only [Option.none_orElse] at h
      obtain ⟨t, ht, hf⟩ := scanFor_suffix f tl v h
      exact ⟨t, ht.trans (List.suffix_cons c tl), hf⟩

theorem ciDrop_starts (pat s r : List Char) (h : ciDrop pat s = some r) :
    ciStarts pat s = true := by
  unfold ciDrop at h
  split_ifs at h with hc
  exact hc

theorem chosenMatchAt_starts (s g : List Char) (h : chosenMatchAt s = some g) :
    ciStarts ("chosen retailer".data) s = true := by
  unfold chosenMatchAt at h
  cases hci : ciDrop ("chosen retailer".data) s with
  | none => rw [hci] at h; simp at h
  | some r => exact ciDrop_starts _ _ _ hci

theorem withinMatchAt_starts (s : List Char) (g : Bool) (h : withinMatchAt s = some g) :
    ciStarts ("within budget".data) s = true := by
  unfold withinMatchAt at h
  cases hci : ciDrop ("within budget".data) s with
  | none => rw [hci] at h; simp at h
  | some r => exact ciDrop_starts _ _ _ hci

theorem chosenByLines_none : ∀ (lines : List (List Char)),
    (∀ l ∈ lines, hasSub ("chosen retailer".data) (lowerL l) = false) →
    chosenByLines lines = none
  | [], _ => rfl
  | line :: rest, h => by
    simp only [chosenByLines]
    by_cases hlbl : rstripColons (lowerL (stripL line)) = ("chosen retailer + price + url".data)
    · exfalso
      have hpre : ("chosen retailer".data) <+: rstripColons (lowerL (stripL line)) := by
        rw [hlbl]
        decide
      have h2 : ("chosen retailer".data) <:+: lowerL (stripL line) :=
        (hpre.trans (rstripColons_isPre _)).isInfix
      have h3 : ("chosen retailer".data) <:+: lowerL line :=
        h2.trans (lowerL_infix_mono (stripL_infix_self line))
      have hfalse := h line (List.mem_cons_self _ _)
      rw [(hasSub_iff _ _).2 h3] at hfalse
      cases hfalse
    · rw [if_neg hlbl]
      exact chosenByLines_none rest (fun l hl => h l (List.mem_cons_of_mem _ hl))

theorem withinByLines_none : ∀ (lines : List (List Char)),
    (∀ l ∈ lines, hasSub ("within budget".data) (lowerL l) = false) →
    withinByLines lines = none
  | [], _ => rfl
  | line :: rest, h => by
    simp only [withinByLines]
    by_cases hlbl : ("within budget".data).isPrefixOf (lowerL (stripL line)) = true
    · exfalso
      have hpre : ("within budget".data) <+: lowerL (stripL line) :=
        List.isPrefixOf_iff_prefix.1 hlbl
      have h3 : ("within budget".data) <:+: lowerL line :=
        hpre.isInfix.trans (lowerL_infix_mono (stripL_infix_self line))
      have hfalse := h line (List.mem_cons_self _ _)
      rw [(hasSub_iff _ _).2 h3] at hfalse
      cases hfalse
    · rw [if_neg hlbl]
      exact withinByLines_none rest (fun l hl => h l (List.mem_cons_of_mem _ hl))

theorem parseLoop_stays_empty : ∀ (lines : List (List Char)),
    (∀ l ∈ lines, switchRetailer none (lowerL l) = none) →
    parseLoop lines none [] = []
  | [], _ => rfl
  | line :: rest, h => by
    unfold parseLoop
    rw [h line (List.mem_cons_self _ _)]
    exact parseLoop_stays_empty rest (fun l hl => h l (List.mem_cons_of_mem _ hl))

/-- C6: the parser is a total function (by construction in this embedding),
and on text containing no recognisable pattern — no retailer keyword, no
chosen-offer label, no within-budget label, case-insensitively — it returns
the input text with an empty offers list and unset chosen-offer and
within-budget fields. -/
theorem c6_parser_no_pattern (raw : String)
    (h1 : ∀ kw ∈ (["amazon", "best buy", "bestbuy", "apple"] : List String),
        hasSub kw.data (lowerL raw.data) = false)
    (h2 : hasSub ("chosen retailer".data) (lowerL raw.data) = false)
    (h3 : hasSub ("within budget".data) (lowerL raw.data) = false) :
    parse_agent_output raw =
      { raw_text := raw, offers := [], chosen := none, within_budget := none } := by
  have hline : ∀ pat : List Char, hasSub pat (lowerL raw.data) = false →
      ∀ l ∈ ((splitlines raw.data).map stripL).filter (fun l => !l.isEmpty),
      hasSub pat (lowerL l) = false := by
    intro pat hno l hl
    exact hasSub_false_mono pat _ _ hno (lowerL_infix_mono (mem_processed_lines raw.data l hl))
  have hoffers : parseLoop (((splitlines raw.data).map stripL).filter (fun l => !l.isEmpty))
      none [] = [] := by
    apply parseLoop_stays_empty
    intro l hl
    unfold switchRetailer
    rw [hline ("amazon".data) (h1 "amazon" (by simp)) l hl,
      hline ("best buy".data) (h1 "best buy" (by simp)) l hl,
      hline ("bestbuy".data) (h1 "bestbuy" (by simp)) l hl,
      hline ("apple".data) (h1 "apple" (by simp)) l hl]
    rfl
  have hch : parse_chosen_offer raw.data
      (((splitlines raw.data).map stripL).filter (fun l => !l.isEmpty)) = none := by
    unfold parse_chosen_offer
    cases hscan : scanFor chosenMatchAt raw.data with
    | some g =>
      exfalso
      obtain ⟨t, hts, hmt⟩ := scanFor_suffix chosenMatchAt raw.data g hscan
      have hst := ciStarts_imp _ t (chosenMatchAt_starts t g hmt)
      have hinf : ("chosen retailer".data) <:+: lowerL raw.data :=
        hst.isInfix.trans (lowerL_infix_mono hts.isInfix)
      rw [(hasSub_iff _ _).2 hinf] at h2
      cases h2
    | none =>
      exact chosenByLines_none _ (hline ("chosen retailer".data) h2)
  have hwb : parse_within_budget raw.data
      (((splitlines raw.data).map stripL).filter (fun l => !l.isEmpty)) = none := by
    unfold parse_within_budget
    cases hscan : scanFor withinMatchAt raw.data with
    | some g =>
      exfalso
      obtain ⟨t, hts, hmt⟩ := scanFor_suffix withinMatchAt raw.data g hscan
      have hst := ciStarts_imp _ t (withinMatchAt_starts t g hmt)
      have hinf : ("within budget".data) <:+: lowerL raw.data :=
        hst.isInfix.trans (lowerL_infix_mono hts.isInfix)
      rw [(hasSub_iff _ _).2 hinf] at h3
      cases h3
    | none =>
      exact withinByLines_none _ (hline ("within budget".data) h3)
  simp only [parse_agent_output]
  rw [hoffers, hch, hwb]
  rfl

/-- Witness for C6 at a concrete pattern-free text. -/
theorem c6_witness :
    parse_agent_output "just text\nwith nothing relevant" =
      { raw_text := "just text\nwith nothing relevant", offers := [], chosen := none,
        within_budget := none } :=
  c6_parser_no_pattern "just text\nwith nothing relevant" (by decide) (by decide) (by decide)
